import Mathlib

/-!
Verification of the OCR import pipeline of the `fichas` repository.

The development shallowly embeds the code of
`src/app/src/fichas/services/ocr/mapping.py` (text normalisation, value
parsing, fuzzy label matching, the multi-pass suggestion aggregator),
`src/app/src/fichas/workers/ocr_worker.py` (the job worker) and the
status-poll watchdog of `src/app/src/fichas/routes/web.py`.

Strings are embedded as `List Char`; Python floats are modelled as exact
rationals (every constant appearing in the embedded code is exactly
representable, and the comparisons the theorems depend on are far from
any rounding boundary); Python dicts keyed by strings are embedded as
association lists that update in place, which preserves the insertion
order semantics of Python dicts.
-/

namespace Fichas

/-- Strings of the embedded program, as lists of characters. -/
abbrev Str := List Char

/-- Embeds a Lean string literal into the `Str` representation. -/
def str (s : String) : Str := s.data

/-- ASCII digit test, mirroring the regex class `[0-9]`. -/
def isDigitCh (c : Char) : Bool := 48 ≤ c.toNat && c.toNat ≤ 57

/-- ASCII lower-case letter test, mirroring the regex class `[a-z]`. -/
def isLowerCh (c : Char) : Bool := 97 ≤ c.toNat && c.toNat ≤ 122

/-- ASCII upper-case letter test, mirroring the regex class `[A-Z]`. -/
def isUpperCh (c : Char) : Bool := 65 ≤ c.toNat && c.toNat ≤ 90

/-- Character class `[a-z0-9]` used by `_normalize_label`. -/
def isLowerAlnum (c : Char) : Bool := isLowerCh c || isDigitCh c

/-- Whitespace as recognised by Python's `str.strip` / regex `\s`
(restricted to the ASCII whitespace characters; the inputs of this
development are ASCII). -/
def pySpace (c : Char) : Bool := c.toNat = 32 || (9 ≤ c.toNat && c.toNat ≤ 13)

/-- Word character for regex `\b` boundaries, class `[A-Za-z0-9_]`
(ASCII fragment of Python's Unicode `\w`). -/
def isWordCh (c : Char) : Bool := isLowerCh c || isUpperCh c || isDigitCh c || c.toNat = 95

/-- Python `str.lower` on a single character (ASCII fragment; the reposito
code applies it after accent stripping, so only ASCII reaches it on the
inputs considered here). -/
def pyLower (c : Char) : Char := if isUpperCh c then Char.ofNat (c.toNat + 32) else c

/-- Drops leading characters satisfying `p` (regex-style `lstrip`). -/
def dropStartWhile (p : Char → Bool) (s : Str) : Str := s.dropWhile p

/-- Drops trailing characters satisfying `p`. -/
def dropEndWhile (p : Char → Bool) (s : Str) : Str := (s.reverse.dropWhile p).reverse

/-- Python `str.strip()`: removes leading and trailing whitespace. -/
def pyStrip (s : Str) : Str := dropEndWhile pySpace (dropStartWhile pySpace s)

/-- Python truthiness of a string: non-empty. -/
def truthy (s : Str) : Bool := !s.isEmpty

/-- Splits a string on runs of whitespace, dropping empty pieces.  This is
both Python's `str.split()` and the repository's
`[t for t in re.split(r"\s+", line) if t]`. -/
def splitWs (s : Str) : List Str :=
  (s.foldr
    (fun c acc =>
      if pySpace c then [] :: acc
      else
        match acc with
        | [] => [[c]]
        | t :: ts => (c :: t) :: ts)
    []).filter truthy

/-- Code-point lexicographic order on strings, as used by Python's
`sorted` on `str`. -/
def lexLt : Str → Str → Bool
  | [], [] => false
  | [], _ :: _ => true
  | _ :: _, [] => false
  | x :: xs, y :: ys =>
    if x.toNat < y.toNat then true
    else if y.toNat < x.toNat then false
    else lexLt xs ys

/-- Inserts a string into a sorted duplicate-free list, keeping it sorted
and duplicate-free. -/
def insSorted (x : Str) : List Str → List Str
  | [] => [x]
  | y :: ys =>
    if x = y then y :: ys
    else if lexLt x y then x :: y :: ys
    else y :: insSorted x ys

/-- Sorted, duplicate-free view of a list of strings: the embedding of a
Python `set` of strings together with `sorted(...)`. -/
def sortDedup (l : List Str) : List Str := l.foldl (fun acc x => insSorted x acc) []

/-- Joins strings with single spaces, Python's `" ".join`. -/
def joinSp : List Str → Str
  | [] => []
  | [t] => t
  | t :: ts => t ++ ' ' :: joinSp ts

/-! ### Model of the `rapidfuzz` similarity library

The repository calls `rapidfuzz.fuzz.token_set_ratio` and
`rapidfuzz.process.extractOne`.  These are an external dependency, so they
are modelled here from the library's documented behaviour: `ratio` is the
normalised Indel similarity (scaled to `[0,100]`), and `token_set_ratio`
is the classic token-set scheme: split both strings into token sets, and
take the best `ratio` among (intersection vs intersection+difference) in
both directions and the two combined strings; when one token set contains
the other the score is `100`. -/

/-- One row update of the longest-common-subsequence dynamic program. -/
def lcsRow (c : Char) : Str → List Nat → Nat → List Nat
  | [], _, _ => []
  | d :: ds, pdiag :: pup :: rest, left =>
    let cur := if c == d then pdiag + 1 else max pup left
    cur :: lcsRow c ds (pup :: rest) cur
  | _ :: _, _, _ => []

/-- Length of the longest common subsequence of two strings. -/
def lcs (s1 s2 : Str) : Nat :=
  ((s1.foldl (fun row c => 0 :: lcsRow c s2 row 0)
      (List.replicate (s2.length + 1) 0)).getLast?).getD 0

/-- Indel distance (Levenshtein restricted to insertions and deletions). -/
def indelDist (s1 s2 : Str) : Nat := s1.length + s2.length - 2 * lcs s1 s2

/-- Normalised Indel similarity scaled to `[0, 100]`
(`rapidfuzz.fuzz.ratio`). -/
def fuzzRatio (s1 s2 : Str) : ℚ :=
  let ls := s1.length + s2.length
  if ls = 0 then 100 else 100 * (1 - (indelDist s1 s2 : ℚ) / (ls : ℚ))

/-- Model of `rapidfuzz.fuzz.token_set_ratio`. -/
def tokenSetRatio (s1 s2 : Str) : ℚ :=
  let ta := sortDedup (splitWs s1)
  let tb := sortDedup (splitWs s2)
  if ta.isEmpty || tb.isEmpty then 0
  else
    let inter := ta.filter (fun t => tb.contains t)
    let dab := ta.filter (fun t => !tb.contains t)
    let dba := tb.filter (fun t => !ta.contains t)
    if !inter.isEmpty && (dab.isEmpty || dba.isEmpty) then 100
    else
      let sab := joinSp dab
      let sba := joinSp dba
      if inter.isEmpty then fuzzRatio sab sba
      else
        let sectLen : ℚ := (joinSp inter).length
        let abLen : ℚ := sab.length
        let baLen : ℚ := sba.length
        let t1Len : ℚ := sectLen + 1 + abLen
        let t2Len : ℚ := sectLen + 1 + baLen
        let r12 := 100 * (1 - (indelDist sab sba : ℚ) / (t1Len + t2Len))
        let rAB := 100 * (1 - (1 + abLen) / (sectLen + t1Len))
        let rBA := 100 * (1 - (1 + baLen) / (sectLen + t2Len))
        max r12 (max rAB rBA)

/-- Model of `rapidfuzz.process.extractOne` with scorer
`fuzz.token_set_ratio`: returns the choice with the highest score (first
on ties) together with its score and index, or `none` for an empty choice
list. -/
def processExtractOne (query : Str) (choices : List Str) : Option (Str × ℚ × Nat) :=
  (choices.foldl
    (fun (st : Nat × Option (Str × ℚ × Nat)) ch =>
      let i := st.1
      let sc := tokenSetRatio query ch
      match st.2 with
      | none => (i + 1, some (ch, sc, i))
      | some (bc, bs, bi) =>
        if sc > bs then (i + 1, some (ch, sc, i)) else (i + 1, some (bc, bs, bi)))
    (0, none)).2

/-! ### Text normaliser (`_strip_accents`, `_normalize_label`) -/

/-- Combining-mark test: the Unicode combining diacritical marks block
`U+0300`–`U+036F`, which covers every mark produced by `nfkdChar`.  Models
`unicodedata.combining(ch) != 0` on that range. -/
def isCombining (c : Char) : Bool := 768 ≤ c.toNat && c.toNat ≤ 879

/-- Decomposition table for `nfkdChar`: the accented Latin letters
relevant to this repository, mapped to their base letter followed by the
combining mark. -/
def nfkdTable : List (Char × Str) :=
  [('á', ['a', Char.ofNat 769]), ('à', ['a', Char.ofNat 768]),
   ('â', ['a', Char.ofNat 770]), ('ã', ['a', Char.ofNat 771]),
   ('é', ['e', Char.ofNat 769]), ('ê', ['e', Char.ofNat 770]),
   ('í', ['i', Char.ofNat 769]), ('ó', ['o', Char.ofNat 769]),
   ('ô', ['o', Char.ofNat 770]), ('õ', ['o', Char.ofNat 771]),
   ('ú', ['u', Char.ofNat 769]), ('ç', ['c', Char.ofNat 807]),
   ('Á', ['A', Char.ofNat 769]), ('À', ['A', Char.ofNat 768]),
   ('Â', ['A', Char.ofNat 770]), ('Ã', ['A', Char.ofNat 771]),
   ('É', ['E', Char.ofNat 769]), ('Ê', ['E', Char.ofNat 770]),
   ('Í', ['I', Char.ofNat 769]), ('Ó', ['O', Char.ofNat 769]),
   ('Ô', ['O', Char.ofNat 770]), ('Õ', ['O', Char.ofNat 771]),
   ('Ú', ['U', Char.ofNat 769]), ('Ç', ['C', Char.ofNat 807])]

/-- Character lookup in the decomposition table. -/
def lookupCh (c : Char) : List (Char × Str) → Option Str
  | [] => none
  | (k, v) :: rest => if c = k then some v else lookupCh c rest

/-- NFKD decomposition of a single character, modelling Python's
`unicodedata.normalize("NFKD", ...)` character by character for the Latin
letters relevant to this repository (ASCII characters and unlisted
characters decompose to themselves). -/
def nfkdChar (c : Char) : Str :=
  match lookupCh c nfkdTable with
  | some d => d
  | none => [c]

/-- Embeds `_strip_accents`: NFKD-decompose, then drop combining marks. -/
def stripAccents (s : Str) : Str :=
  (s.flatMap nfkdChar).filter (fun c => !isCombining c)

/-- Character kept verbatim by the substitution
`re.sub(r"[^a-z0-9\s]+", " ", value)`: lower-case alphanumerics and
whitespace. -/
def keepCh (c : Char) : Bool := isLowerAlnum c || pySpace c

/-- Replaces each maximal run of characters outside `[a-z0-9\s]` by a
single space (the first substitution of `_normalize_label`).  The boolean
argument records whether the previous character was part of such a run. -/
def subNonAlnum : Str → Bool → Str
  | [], _ => []
  | c :: rest, prevBad =>
    if keepCh c then c :: subNonAlnum rest false
    else if prevBad then subNonAlnum rest true
    else ' ' :: subNonAlnum rest true

/-- Replaces each maximal run of whitespace by a single space
(`re.sub(r"\s+", " ", value)`).  The boolean argument records whether the
previous character was whitespace. -/
def collapseWs : Str → Bool → Str
  | [], _ => []
  | c :: rest, prevSp =>
    if pySpace c then
      if prevSp then collapseWs rest true else ' ' :: collapseWs rest true
    else c :: collapseWs rest false

/-- Embeds `_normalize_label`: strip accents, lower-case, strip, replace
non-alphanumeric runs by spaces, collapse whitespace, strip. -/
def normalizeLabel (value : Str) : Str :=
  let v := pyStrip ((stripAccents value).map pyLower)
  pyStrip (collapseWs (subNonAlnum v false) false)

/-! ### Value parsers (`_parse_date`, `_parse_decimal`, `_parse_year`,
`_parse_tc_numero`, `_parse_process_key`) -/

/-- Numeric value of an ASCII digit character. -/
def digitVal (c : Char) : Nat := c.toNat - 48

/-- Embeds the `strptime` directives `%d` (with `maxv = 31`) and `%m`
(with `maxv = 12`): one or two digits whose value is in `[1, maxv]`.  The
underlying regexes (`3[01]|[12]\d|0[1-9]|[1-9]` resp.
`1[0-2]|0[1-9]|[1-9]`) prefer the two-digit alternatives; when two digits
are present but out of range the regex engine falls back to the one-digit
alternative, which is what the second branch does. -/
def matchNum2 (maxv : Nat) : Str → Option (Nat × Str)
  | [] => none
  | [c1] =>
    if isDigitCh c1 && decide (1 ≤ digitVal c1) then some (digitVal c1, []) else none
  | c1 :: c2 :: rest =>
    if isDigitCh c1 && isDigitCh c2 then
      let v := digitVal c1 * 10 + digitVal c2
      if 1 ≤ v ∧ v ≤ maxv then some (v, rest)
      else if 1 ≤ digitVal c1 then some (digitVal c1, c2 :: rest)
      else none
    else if isDigitCh c1 && decide (1 ≤ digitVal c1) then some (digitVal c1, c2 :: rest)
    else none

/-- Embeds the `strptime` directive `%Y`: exactly four digits. -/
def matchY4 : Str → Option (Nat × Str)
  | a :: b :: c :: d :: rest =>
    if isDigitCh a && isDigitCh b && isDigitCh c && isDigitCh d then
      some (((digitVal a * 10 + digitVal b) * 10 + digitVal c) * 10 + digitVal d, rest)
    else none
  | _ => none

/-- Embeds the `strptime` directive `%y`: exactly two digits, with the
library's century pivot (`00`–`68` map to `20xx`, `69`–`99` to `19xx`). -/
def matchY2 : Str → Option (Nat × Str)
  | a :: b :: rest =>
    if isDigitCh a && isDigitCh b then
      let v := digitVal a * 10 + digitVal b
      some (if v ≤ 68 then 2000 + v else 1900 + v, rest)
    else none
  | _ => none

/-- Consumes one expected literal character (a format separator). -/
def expectCh (c : Char) : Str → Option Str
  | d :: rest => if d == c then some rest else none
  | [] => none

/-- Gregorian leap-year rule used by Python's `datetime`. -/
def isLeap (y : Nat) : Bool := y % 4 = 0 && (y % 100 ≠ 0 || y % 400 = 0)

/-- Number of days in a month, as validated by the `datetime` constructor. -/
def daysInMonth (y m : Nat) : Nat :=
  if m = 2 then (if isLeap y then 29 else 28)
  else if m = 4 ∨ m = 6 ∨ m = 9 ∨ m = 11 then 30
  else 31

/-- Validity check performed by the `datetime.date` constructor
(`MINYEAR = 1`, `MAXYEAR = 9999`). -/
def validDate (y m d : Nat) : Bool :=
  1 ≤ y && y ≤ 9999 && 1 ≤ m && m ≤ 12 && 1 ≤ d && d ≤ daysInMonth y m

/-- One of the six fixed `strptime` formats tried by `_parse_date`:
day/month/year or year/month/day with a given separator; `y4` selects
`%Y` (four digits) over `%y` (two digits). -/
inductive DateFmt where
  | dmy (sep : Char) (y4 : Bool)
  | ymd (sep : Char)
deriving DecidableEq

/-- Runs one `strptime` format against a string, requiring the whole
string to be consumed, and returns `(year, month, day)`. -/
def strptimeDate : DateFmt → Str → Option (Nat × Nat × Nat)
  | .dmy sep y4, s => do
    let (d, s) ← matchNum2 31 s
    let s ← expectCh sep s
    let (m, s) ← matchNum2 12 s
    let s ← expectCh sep s
    let (y, s) ← if y4 then matchY4 s else matchY2 s
    if s.isEmpty then some (y, m, d) else none
  | .ymd sep, s => do
    let (y, s) ← matchY4 s
    let s ← expectCh sep s
    let (m, s) ← matchNum2 12 s
    let s ← expectCh sep s
    let (d, s) ← matchNum2 31 s
    if s.isEmpty then some (y, m, d) else none

/-- Decimal rendering of `n % 10^k` padded to `k` digits, least
significant digit last. -/
def padDigits (k n : Nat) : Str :=
  (List.range k).reverse.map (fun i => Char.ofNat (48 + n / 10 ^ i % 10))

/-- Two-digit zero-padded rendering. -/
def pad2 (n : Nat) : Str := padDigits 2 n

/-- Four-digit zero-padded rendering. -/
def pad4 (n : Nat) : Str := padDigits 4 n

/-- Unpadded decimal rendering of a number below 100: a single digit for
values below ten, two digits otherwise — the way a day or month may
appear without zero padding in a date string. -/
def renderNum (n : Nat) : Str := if n < 10 then [Char.ofNat (48 + n)] else pad2 n

/-- ISO rendering `YYYY-MM-DD` produced by `date.isoformat()`. -/
def isoDate (y m d : Nat) : Str := pad4 y ++ '-' :: (pad2 m ++ '-' :: pad2 d)

/-- The six formats of `_parse_date`, in source order: `%d/%m/%Y`,
`%d-%m-%Y`, `%Y-%m-%d`, `%Y/%m/%d`, `%d.%m.%Y`, `%d.%m.%y`. -/
def dateFmts : List DateFmt :=
  [.dmy '/' true, .dmy '-' true, .ymd '-', .ymd '/', .dmy '.' true, .dmy '.' false]

/-- One format attempt of `_parse_date`: parse, validate through the
`date` constructor, and render with `isoformat()`. -/
def parseDateFmt (fmt : DateFmt) (s : Str) : Option Str :=
  match strptimeDate fmt s with
  | some (y, m, d) => if validDate y m d then some (isoDate y m d) else none
  | none => none

/-- Embeds `_parse_date`: strip the value, try the six formats in order,
first success wins. -/
def parseDate (value : Str) : Option Str :=
  dateFmts.findSome? (fun fmt => parseDateFmt fmt (pyStrip value))

/-- Removes every occurrence of the two-character sequence `R$`
(`value.replace("R$", "")`, scanning left to right). -/
def removeRS : Str → Str
  | 'R' :: '$' :: rest => removeRS rest
  | c :: rest => c :: removeRS rest
  | [] => []

/-- Embeds `_parse_decimal`: remove `R$`, spaces and periods, turn commas
into periods, drop everything outside `[0-9.-]`, and fail on an empty
result. -/
def parseDecimal (value : Str) : Option Str :=
  let cleaned :=
    (((removeRS value).filter (fun c => c != ' ')).filter (fun c => c != '.')).map
      (fun c => if c == ',' then '.' else c)
  let cleaned := cleaned.filter (fun c => isDigitCh c || c == '.' || c == '-')
  if cleaned.isEmpty then none else some cleaned

/-- Leftmost-position regex search: tries the position matcher `f` at
every suffix (left to right) and returns its first hit. -/
def searchStr (f : Str → Option α) : Str → Option α
  | [] => f []
  | c :: rest =>
    match f (c :: rest) with
    | some r => some r
    | none => searchStr f rest

/-- Position matcher for `(19|20)\d{2}`. -/
def yearAt : Str → Option Str
  | a :: b :: c :: d :: _ =>
    if ((a = '1' ∧ b = '9') ∨ (a = '2' ∧ b = '0')) ∧ (isDigitCh c ∧ isDigitCh d) then
      some [a, b, c, d]
    else none
  | _ => none

/-- Embeds `_parse_year`: leftmost match of `(19|20)\d{2}`. -/
def parseYear (value : Str) : Option Str := searchStr yearAt value

/-- Separator class of the TC-number pattern: dot, slash or dash. -/
def isSepDot (c : Char) : Bool := c == '.' || c == '/' || c == '-'

/-- Position matcher for `\d{1,7}` sep `\d{2,4}` (sep the dot, slash or
dash class): a maximal leading digit
run of length 1–7 (a longer run cannot match at this position because the
character after any shorter prefix is again a digit, not a separator),
a separator, then 2–4 digits taken greedily. -/
def tcNumAt (s : Str) : Option Str :=
  let d1 := s.takeWhile isDigitCh
  if d1.isEmpty || decide (7 < d1.length) then none
  else
    match s.drop d1.length with
    | sep :: rest =>
      if isSepDot sep then
        let d2 := rest.takeWhile isDigitCh
        if 2 ≤ d2.length then some (d1 ++ sep :: d2.take 4) else none
      else none
    | [] => none

/-- Position matcher for `\d{3,}`: a maximal digit run of length at least
three. -/
def digits3At (s : Str) : Option Str :=
  let d := s.takeWhile isDigitCh
  if 3 ≤ d.length then some d else none

/-- Embeds `_parse_tc_numero`: first `\d{1,7}` sep `\d{2,4}`, then the
fallback `\d{3,}`. -/
def parseTcNumero (value : Str) : Option Str :=
  match searchStr tcNumAt value with
  | some r => some r
  | none => searchStr digits3At value

/-- Character class `[\d./*-]` of the process-key pattern. -/
def isProcKeyCh (c : Char) : Bool :=
  isDigitCh c || c == '.' || c == '/' || c == '*' || c == '-'

/-- Position matcher for `\d[\d./*-]+`. -/
def procKeyAt : Str → Option Str
  | [] => none
  | c :: rest =>
    if isDigitCh c then
      let tail := rest.takeWhile isProcKeyCh
      if tail.isEmpty then none else some (c :: tail)
    else none

/-- Embeds `_parse_process_key`: leftmost match of `\d[\d./*-]+`. -/
def parseProcessKey (value : Str) : Option Str := searchStr procKeyAt value

/-! ### Key-value extraction (`_extract_key_values`) -/

/-- Embeds the per-line regex
`^\s*([^:]{2,60})\s*:\s*(.+)$` of `_extract_key_values`, applied to the
stripped line: the matched colon is necessarily the first one (the label
group cannot contain a colon and `\s*` only crosses whitespace), the
label group needs at least two characters before the colon and at most 60
once trailing whitespace is absorbed by `\s*`, and at least one character
must follow the colon.  The extractor then strips both groups. -/
def keyValueOfLine (line : Str) : Option (Str × Str × Str) :=
  let raw := pyStrip line
  if raw.isEmpty then none
  else
    match raw.findIdx? (fun c => c == ':') with
    | none => none
    | some p =>
      if p < 2 then none
      else
        let key0 := raw.take p
        if 60 < (dropEndWhile pySpace key0).length then none
        else
          let value0 := raw.drop (p + 1)
          if value0.isEmpty then none
          else some (pyStrip key0, pyStrip value0, raw)

/-- Embeds `_extract_key_values` over the line list. -/
def extractKeyValues (lines : List Str) : List (Str × Str × Str) :=
  lines.filterMap keyValueOfLine

/-! ### Label index and inline label matching -/

/-- Suggestion group: the two keys `"base"` and `"extras"` of the
suggestions dictionary (the code only ever constructs these two). -/
inductive Grp where
  | base
  | extras
deriving DecidableEq

/-- Looks a key up in an association list (Python `d.get(k)` / `d[k]`). -/
def lookupAssoc (k : Str) : List (Str × α) → Option α
  | [] => none
  | (k2, v) :: rest => if k = k2 then some v else lookupAssoc k rest

/-- Sets a key in an association list, keeping the key's original
position when it is already present and appending otherwise — the update
semantics of a Python dict. -/
def updAssoc (k : Str) (v : α) : List (Str × α) → List (Str × α)
  | [] => [(k, v)]
  | (k2, v2) :: rest => if k = k2 then (k, v) :: rest else (k2, v2) :: updAssoc k v rest

/-- The static base-field vocabulary `base_labels` of
`map_fields_to_ficha`, in source order (including the literal duplicates
in the `procedencia` and `reparticao` entries). -/
def baseLabels : List (Str × List Str) :=
  [ (str "process_key",
      [str "processo", str "processo chave", str "chave do processo",
       str "numero do processo", str "numero processo", str "proc"]),
    (str "tc_numero", [str "tc numero", str "tc", str "tcm", str "numero tc"]),
    (str "ano", [str "ano", str "exercicio"]),
    (str "data", [str "data", str "data do processo", str "data de abertura"]),
    (str "interessado", [str "interessado", str "requerente", str "interessados"]),
    (str "assunto", [str "assunto", str "objeto"]),
    (str "procedencia", [str "procedencia", str "procedencia", str "origem"]),
    (str "reparticao", [str "reparticao", str "reparticao", str "setor", str "unidade"]),
    (str "valor", [str "valor", str "valor total", str "montante", str "quantia"]),
    (str "observacoes", [str "observacoes", str "observacao", str "anotacoes", str "obs"]),
    (str "indexador", [str "indexador"]) ]

/-- Template field as read from the template schema
(`fichas.schemas.TemplateField`): only the id, display label and declared
type are consulted by the mapping code. -/
structure TemplateField where
  field_id : Str
  label : Str
  type : Str
deriving DecidableEq

/-- Template section (`fichas.schemas.TemplateSection`). -/
structure TemplateSection where
  section_id : Str
  label : Str
  fields : List TemplateField
deriving DecidableEq

/-- Template schema (`fichas.schemas.TemplateSchema`). -/
structure TemplateSchema where
  sections : List TemplateSection
deriving DecidableEq

/-- Builds the `label_map` dict of `map_fields_to_ficha`: every base
alias maps to `(base, field)`, then every template field registers its
label and its id as `(extras, field_id)`, later registrations
overwriting earlier ones in place. -/
def labelMapOf (template : Option TemplateSchema) : List (Str × Grp × Str) :=
  let lm := baseLabels.foldl
    (fun lm fl =>
      fl.2.foldl (fun lm lab => updAssoc (normalizeLabel lab) (Grp.base, fl.1) lm) lm)
    []
  match template with
  | none => lm
  | some t =>
    t.sections.foldl
      (fun lm sec =>
        sec.fields.foldl
          (fun lm fld =>
            updAssoc (normalizeLabel fld.field_id) (Grp.extras, fld.field_id)
              (updAssoc (normalizeLabel fld.label) (Grp.extras, fld.field_id) lm))
          lm)
      lm

/-- Builds the `template_fields` dict mapping a template field id to its
declared type. -/
def templateFieldsOf (template : Option TemplateSchema) : List (Str × Str) :=
  match template with
  | none => []
  | some t =>
    t.sections.foldl
      (fun tf sec => sec.fields.foldl (fun tf fld => updAssoc fld.field_id fld.type tf) tf)
      []

/-- Inserts an alias entry into a list sorted by non-increasing token
count, after entries of strictly greater length and after earlier entries
of the same length (so that the overall sort is stable, like Python's
`list.sort` with `reverse=True`). -/
def insByLen (x : List Str × Grp × Str) :
    List (List Str × Grp × Str) → List (List Str × Grp × Str)
  | [] => [x]
  | y :: ys => if y.1.length ≤ x.1.length then x :: y :: ys else y :: insByLen x ys

/-- Stable sort by non-increasing alias token count
(`alias_tokens.sort(key=len, reverse=True)`). -/
def sortByLenDesc (l : List (List Str × Grp × Str)) : List (List Str × Grp × Str) :=
  l.foldr insByLen []

/-- Builds the sorted `alias_tokens` list of `map_fields_to_ficha` from a
label map: split each alias into tokens, drop empty aliases, sort stably
by non-increasing token count. -/
def aliasTokensOf (labelMap : List (Str × Grp × Str)) : List (List Str × Grp × Str) :=
  sortByLenDesc
    (labelMap.filterMap (fun e =>
      let a := splitWs e.1
      if a.isEmpty then none else some (a, e.2.1, e.2.2)))

/-- Embeds `_tokenize_line`: whitespace tokens of the stripped line,
paired with their normalised forms. -/
def tokenizeLine (line : Str) : List Str × List Str :=
  let tokens := splitWs (pyStrip line)
  (tokens, tokens.map normalizeLabel)

/-- Embeds `_match_inline_label`: first an exact prefix match of the
alias token lists (in sorted order) against the line's normalised tokens,
returning the joined trailing tokens as the value with score 100;
otherwise, for lines of at most two tokens, a fuzzy lookup of the whole
normalised line against the label-map keys accepted at score 85. -/
def matchInlineLabel (line : Str) (aliasToks : List (List Str × Grp × Str))
    (labelMap : List (Str × Grp × Str)) : Option (Grp × Str × Str × ℚ) :=
  let tn := tokenizeLine line
  let tokens := tn.1
  let normTokens := tn.2
  if normTokens.isEmpty then none
  else
    match aliasToks.findSome? (fun a =>
        if normTokens.take a.1.length = a.1 then
          some (a.2.1, a.2.2, pyStrip (joinSp (tokens.drop a.1.length)), (100 : ℚ))
        else none) with
    | some r => some r
    | none =>
      if normTokens.length ≤ 2 then
        let normLine := joinSp normTokens
        match processExtractOne normLine (labelMap.map (·.1)) with
        | some (best, score, _) =>
          if 85 ≤ score then
            match lookupAssoc best labelMap with
            | some gf => some (gf.1, gf.2, [], score)
            | none => none
          else none
        | none => none
      else none

/-! ### Confidence scoring -/

/-- An OCR item as consumed by the mapping code: only the recognised text
and the reported confidence are read (the bounding box is passed through
untouched and is not modelled). -/
structure OcrItem where
  text : Str
  confidence : Option ℚ
deriving DecidableEq

/-- The effective confidence of an OCR item:
`float(item.get("confidence") or 0.4)` — a missing or zero (falsy) value
becomes the 0.4 default. -/
def itemConf (it : OcrItem) : ℚ :=
  match it.confidence with
  | none => 4 / 10
  | some c => if c = 0 then 4 / 10 else c

/-- Embeds `_line_confidence`: fuzzily locate the line among the OCR item
texts and take that item's confidence, damped by 0.7 when the match score
is below 70; 0.4 when there are no items or no candidates.  Note that the
returned index is an index into the filtered candidate list but is used
to subscript the full item list, exactly as in the source. -/
def lineConfidence (line : Str) (items : List OcrItem) : ℚ :=
  if items.isEmpty then 4 / 10
  else
    let candidates := (items.filter (fun it => truthy it.text)).map (·.text)
    match processExtractOne line candidates with
    | none => 4 / 10
    | some b =>
      let score := b.2.1
      let idx := b.2.2
      let conf := itemConf ((items.drop idx).headD ⟨[], none⟩)
      if score < 70 then conf * (7 / 10) else conf

/-- Embeds `_block_confidence`: the average of the per-line confidences
of the non-blank lines, 0.4 when there are none. -/
def blockConfidence (lines : List Str) (items : List OcrItem) : ℚ :=
  if lines.isEmpty then 4 / 10
  else
    let scores := (lines.filter (fun l => truthy (pyStrip l))).map
      (fun l => lineConfidence l items)
    if scores.isEmpty then 4 / 10 else scores.sum / (scores.length : ℚ)

/-- Embeds `_confidence_badge`: add 0.1 for a match score of at least 85,
subtract 0.1 for one below 75, and clamp the result to the interval from
0.05 to 1.0. -/
def confidenceBadge (conf matchedScore : ℚ) : ℚ :=
  let boost : ℚ := if 85 ≤ matchedScore then 1 / 10 else 0
  let penalty : ℚ := if matchedScore < 75 then 1 / 10 else 0
  max (5 / 100) (min 1 (conf + boost - penalty))

/-! ### Layout block extraction (`_collect_label_blocks`) -/

/-- State of the block-extraction loop: the currently open label, the
accumulated buffer lines, and the emitted candidates. -/
structure BlockState where
  current : Option (Grp × Str × ℚ)
  buffer : List Str
  results : List (Grp × Str × Str × ℚ)
deriving DecidableEq

/-- Embeds the `flush()` closure: when a label is open and the buffer is
non-empty, emit one candidate whose value is the buffer joined by spaces
and whose confidence is the badge-adjusted block confidence; always reset
the label and buffer. -/
def blockFlush (items : List OcrItem) (st : BlockState) : BlockState :=
  match st.current with
  | some gfs =>
    if st.buffer.isEmpty then { current := none, buffer := [], results := st.results }
    else
      let value := pyStrip (joinSp st.buffer)
      let conf := confidenceBadge (blockConfidence st.buffer items) gfs.2.2
      { current := none, buffer := [],
        results := st.results ++ [(gfs.1, gfs.2.1, value, conf)] }
  | none => { current := none, buffer := [], results := st.results }

/-- Embeds `_collect_label_blocks`: scan the lines, flushing on blank
lines and on new inline label matches; a label match with an inline value
emits an immediate candidate, one without a value opens a block; other
lines are buffered while a block is open. -/
def collectLabelBlocks (lines : List Str) (aliasToks : List (List Str × Grp × Str))
    (labelMap : List (Str × Grp × Str)) (items : List OcrItem) :
    List (Grp × Str × Str × ℚ) :=
  let final := lines.foldl
    (fun st line =>
      if !truthy (pyStrip line) then blockFlush items st
      else
        match matchInlineLabel line aliasToks labelMap with
        | some m =>
          let st := blockFlush items st
          let value := m.2.2.1
          if truthy value then
            let conf := confidenceBadge (lineConfidence line items) m.2.2.2
            { st with results := st.results ++ [(m.1, m.2.1, value, conf)] }
          else { st with current := some (m.1, m.2.1, m.2.2.2) }
        | none =>
          match st.current with
          | some _ => { st with buffer := st.buffer ++ [pyStrip line] }
          | none => st)
    ⟨none, [], []⟩
  (blockFlush items final).results

/-! ### Suggestion aggregation (`add_suggestion`, `_parse_value`) -/

/-- A field suggestion: parsed value, confidence, and the pass that
produced it. -/
structure Suggestion where
  value : Str
  confidence : ℚ
  source : Str
deriving DecidableEq

/-- The suggestions dictionary with its two groups. -/
structure Suggestions where
  base : List (Str × Suggestion)
  extras : List (Str × Suggestion)
deriving DecidableEq

/-- Reads the slot map of a group (`suggestions[group]`). -/
def Suggestions.grp (s : Suggestions) : Grp → List (Str × Suggestion)
  | .base => s.base
  | .extras => s.extras

/-- Replaces the slot map of a group. -/
def Suggestions.setGrp (s : Suggestions) : Grp → List (Str × Suggestion) → Suggestions
  | .base, m => { s with base := m }
  | .extras, m => { s with extras := m }

/-- Embeds `_parse_value`: dispatch on the base-field name, then on the
declared template type; other fields are trimmed pass-through with the
empty string treated as absent. -/
def parseValue (field value : Str) (templateFields : List (Str × Str)) : Option Str :=
  if field = str "tc_numero" then parseTcNumero value
  else if field = str "process_key" then parseProcessKey value
  else if field = str "ano" then parseYear value
  else if field = str "data" then parseDate value
  else if field = str "valor" then parseDecimal value
  else
    let dflt := let t := pyStrip value; if t.isEmpty then none else some t
    match lookupAssoc field templateFields with
    | some ftype =>
      if ftype = str "date" then parseDate value
      else if ftype = str "number" ∨ ftype = str "currency" then parseDecimal value
      else if ftype = str "boolean" then
        let lowered := (pyStrip value).map pyLower
        if lowered = str "sim" ∨ lowered = str "true" ∨ lowered = str "1" ∨
            lowered = str "yes" then some (str "true")
        else if lowered = str "nao" ∨ lowered = str "false" ∨ lowered = str "0" ∨
            lowered = str "no" then some (str "false")
        else none
      else dflt
    | none => dflt

/-- Embeds the `reparticao` guard `re.match(r"(?i)^valor\\b", value.strip())`.
Inside the raw string the two backslashes are an escaped literal
backslash, so the compiled pattern matches `valor` followed by a literal
backslash and the letter `b` (all case-insensitively), not a word
boundary. -/
def valorGuard (value : Str) : Bool :=
  ((pyStrip value).map pyLower).take 7 = str "valor\\b"

/-- Embeds the `add_suggestion` closure: reject `reparticao` candidates
caught by the guard, drop candidates whose value fails to parse, and
otherwise fill an empty slot or overwrite an occupied slot only when the
new confidence is strictly greater. -/
def addSuggestion (templateFields : List (Str × Str)) (sugs : Suggestions) (g : Grp)
    (field value : Str) (confidence : ℚ) (source : Str) : Suggestions :=
  if field = str "reparticao" ∧ valorGuard value then sugs
  else
    match parseValue field value templateFields with
    | none => sugs
    | some parsed =>
      let m := sugs.grp g
      let entry : Suggestion := ⟨parsed, confidence, source⟩
      match lookupAssoc field m with
      | some existing =>
        if existing.confidence < confidence then sugs.setGrp g (updAssoc field entry m)
        else sugs
      | none => sugs.setGrp g (updAssoc field entry m)

/-! ### Layout-hint helpers of `map_fields_to_ficha` -/

/-- Python `range(a, b)`. -/
def pyRange (a b : Nat) : List Nat := (List.range b).filter (fun j => a ≤ j)

/-- A recorded inline label match (`label_matches` entries). -/
structure LabelMatch where
  index : Nat
  field : Str
  value : Str
  score : ℚ
deriving DecidableEq

/-- Builds `label_matches` and `label_positions`: every line that inline
matches a label is recorded; value-less matches additionally record the
first line index per field. -/
def labelScan (lines : List Str) (aliasToks : List (List Str × Grp × Str))
    (labelMap : List (Str × Grp × Str)) : List LabelMatch × List (Str × Nat) :=
  (lines.enum.foldl
    (fun (st : List LabelMatch × List (Str × Nat)) li =>
      let line := li.2
      let idx := li.1
      match matchInlineLabel line aliasToks labelMap with
      | some m =>
        let fld := m.2.1
        let value := m.2.2.1
        let mts := st.1 ++ [⟨idx, fld, value, m.2.2.2⟩]
        let positions :=
          if !truthy value ∧ lookupAssoc fld st.2 = none then st.2 ++ [(fld, idx)]
          else st.2
        (mts, positions)
      | none => st)
    ([], []))

/-- Embeds the `is_label_index` helper. -/
def isLabelIndex (mts : List LabelMatch) (j : Nat) : Bool :=
  mts.any (fun m => m.index == j)

/-- Word-boundary test between an optional previous character and an
optional next character (regex `\b`): true when exactly one side is a
word character, with string edges counting as non-word. -/
def wbBetween (prev next : Option Char) : Bool :=
  (match prev with | none => false | some c => isWordCh c) !=
    (match next with | none => false | some c => isWordCh c)

/-- Boundary test for a match starting with a word character: the
previous character must be absent or a non-word character. -/
def wbBefore (prev : Option Char) : Bool :=
  match prev with
  | none => true
  | some c => !isWordCh c

/-- Scans every position of a string (left to right), providing the
matcher with the character preceding the position. -/
def scanPositions (f : Option Char → Str → Option α) : Option Char → Str → Option α
  | prev, [] => f prev []
  | prev, c :: rest =>
    match f prev (c :: rest) with
    | some r => some r
    | none => scanPositions f (some c) rest

/-- All suffixes reachable from `s` by consuming `k` leading digits for
each `k` between `lo` and `hi` (regex backtracking through a bounded
digit quantifier). -/
def afterDigits (lo hi : Nat) (s : Str) : List Str :=
  let r := (s.takeWhile isDigitCh).length
  ((List.range (hi + 1)).filter (fun k => lo ≤ k && k ≤ r)).map (fun k => s.drop k)

/-- Position matcher of the `looks_like_date` pattern
`\b[0-9]{1,2}` sep `[0-9]{1,2}` sep `[0-9]{2,4}\b` (sep the dot, slash
or dash class), with existential backtracking semantics. -/
def dateLikeAt (prev : Option Char) (s : Str) : Option Unit :=
  if !wbBefore prev then none
  else if (afterDigits 1 2 s).any (fun s1 =>
      match s1 with
      | sep1 :: s2 =>
        isSepDot sep1 && (afterDigits 1 2 s2).any (fun s3 =>
          match s3 with
          | sep2 :: s4 =>
            isSepDot sep2 && (afterDigits 2 4 s4).any (fun s5 =>
              wbBetween (some '0') s5.head?)
          | [] => false)
      | [] => false) then some () else none

/-- Embeds `looks_like_date`. -/
def looksLikeDate (value : Str) : Bool :=
  (scanPositions dateLikeAt none value).isSome

/-- Position matcher of `\b(19|20)\d{2}\b`. -/
def yearBoundedAt (prev : Option Char) (s : Str) : Option Unit :=
  if !wbBefore prev then none
  else
    match s with
    | a :: b :: c :: d :: rest =>
      if ((a = '1' ∧ b = '9') ∨ (a = '2' ∧ b = '0')) ∧ (isDigitCh c ∧ isDigitCh d) ∧
          wbBetween (some d) rest.head? = true then some ()
      else none
    | _ => none

/-- Embeds `looks_like_year`. -/
def looksLikeYear (value : Str) : Bool :=
  (scanPositions yearBoundedAt none value).isSome

/-- All suffixes reachable by consuming one or more thousands groups
(a dot or comma followed by exactly three digits). -/
def thousandsRests (fuel : Nat) (s : Str) : List Str :=
  match fuel with
  | 0 => []
  | fuel + 1 =>
    match s with
    | sep :: a :: b :: c :: rest =>
      if (sep = '.' ∨ sep = ',') ∧ (isDigitCh a ∧ isDigitCh b ∧ isDigitCh c) then
        rest :: thousandsRests fuel rest
      else []
    | _ => []

/-- Position matcher of the `looks_like_value` pattern: `\b`, one to
three digits, one or more thousands groups, then a decimal mark from the
class containing comma, literal backslash and dot (the source writes the
class with a doubled backslash inside a raw string), exactly two digits
and `\b`. -/
def valueLikeAt (prev : Option Char) (s : Str) : Option Unit :=
  if !wbBefore prev then none
  else if (afterDigits 1 3 s).any (fun s1 =>
      (thousandsRests s1.length s1).any (fun s2 =>
        match s2 with
        | mk :: d1 :: d2 :: rest =>
          (mk = ',' ∨ mk = '\\' ∨ mk = '.') ∧ (isDigitCh d1 ∧ isDigitCh d2) ∧
            wbBetween (some d2) rest.head? = true
        | _ => false)) then some () else none

/-- Embeds `looks_like_value`. -/
def looksLikeValue (value : Str) : Bool :=
  (scanPositions valueLikeAt none value).isSome

/-- Position matcher of the `looks_like_proc` pattern `\bPROC\\b` under
`re.IGNORECASE`: the doubled backslash in the raw string makes the
pattern require a literal backslash followed by the letter `b` after
`PROC`, so this matches essentially no OCR text. -/
def procLikeAt (prev : Option Char) (s : Str) : Option Unit :=
  if !wbBefore prev then none
  else
    match s with
    | p :: r :: o :: c :: bs :: b :: _ =>
      if ([p, r, o, c].map pyLower = str "proc") ∧ bs = '\\' ∧ pyLower b = 'b' then some ()
      else none
    | _ => none

/-- Embeds `looks_like_proc`. -/
def looksLikeProc (value : Str) : Bool :=
  (scanPositions procLikeAt none value).isSome

/-- Embeds `is_short_connector`. -/
def isShortConnector (value : Str) : Bool :=
  [str "do", str "da", str "de", str "dos", str "das", str "no", str "na",
    str "nos", str "nas", str "e"].contains (normalizeLabel value)

/-- ASCII letter search `re.search(r"[A-Za-z]", line)`. -/
def hasAsciiLetter (line : Str) : Bool :=
  line.any (fun c => isLowerCh c || isUpperCh c)

/-- Embeds the `interessado` layout hint: when the field is unresolved
and a value-less `interessado` label line exists, scan up to seven
following lines and submit the first plausible one (not a label line, at
least three characters, containing a letter, not date/year/currency/proc
noise) with its raw line confidence. -/
def interessadoHint (templateFields : List (Str × Str)) (lines : List Str)
    (mts : List LabelMatch) (positions : List (Str × Nat)) (items : List OcrItem)
    (sugs : Suggestions) : Suggestions :=
  if (lookupAssoc (str "interessado") sugs.base).isSome then sugs
  else
    match lookupAssoc (str "interessado") positions with
    | none => sugs
    | some idx =>
      match (pyRange (idx + 1) (min lines.length (idx + 8))).findSome? (fun j =>
          let line := pyStrip (lines.getD j [])
          if isLabelIndex mts j then none
          else if line.length < 3 then none
          else if !hasAsciiLetter line then none
          else if looksLikeYear line || looksLikeDate line || looksLikeValue line ||
              looksLikeProc line then none
          else some line) with
      | none => sugs
      | some line =>
        addSuggestion templateFields sugs .base (str "interessado") line
          (lineConfidence line items) (str "layout_hint")

/-- Embeds the `assunto` layout hint: collect every plausible line after
the value-less `assunto` label (skipping label lines but stopping at an
`observacoes` or `process_key` label, skipping short non-connector lines,
letter-less lines and date/year/currency/proc noise) and submit the
joined block with its block confidence. -/
def assuntoHint (templateFields : List (Str × Str)) (lines : List Str)
    (mts : List LabelMatch) (positions : List (Str × Nat)) (items : List OcrItem)
    (sugs : Suggestions) : Suggestions :=
  if (lookupAssoc (str "assunto") sugs.base).isSome then sugs
  else
    match lookupAssoc (str "assunto") positions with
    | none => sugs
    | some idx =>
      let final := (pyRange (idx + 1) lines.length).foldl
        (fun (st : List Str × Bool) j =>
          let collected := st.1
          let broken := st.2
          if broken then st
          else
            let line := pyStrip (lines.getD j [])
            if isLabelIndex mts j then
              let fld := (mts.find? (fun m => m.index == j)).map (·.field)
              if fld = some (str "observacoes") ∨ fld = some (str "process_key") then
                (collected, true)
              else st
            else if line.length < 3 ∧ !isShortConnector line then st
            else if !hasAsciiLetter line then st
            else if looksLikeYear line || looksLikeDate line || looksLikeValue line ||
                looksLikeProc line then st
            else (collected ++ [line], broken))
        ([], false)
      let collected := final.1
      if collected.isEmpty then sugs
      else
        addSuggestion templateFields sugs .base (str "assunto") (joinSp collected)
          (blockConfidence collected items) (str "layout_hint")

/-- Embeds the `observacoes` layout hint: submit the first non-label line
of length at least two among the three lines after the value-less
`observacoes` label. -/
def observacoesHint (templateFields : List (Str × Str)) (lines : List Str)
    (mts : List LabelMatch) (positions : List (Str × Nat)) (items : List OcrItem)
    (sugs : Suggestions) : Suggestions :=
  if (lookupAssoc (str "observacoes") sugs.base).isSome then sugs
  else
    match lookupAssoc (str "observacoes") positions with
    | none => sugs
    | some idx =>
      match (pyRange (idx + 1) (min lines.length (idx + 4))).findSome? (fun j =>
          let line := pyStrip (lines.getD j [])
          if isLabelIndex mts j then none
          else if line.length < 2 then none
          else some line) with
      | none => sugs
      | some line =>
        addSuggestion templateFields sugs .base (str "observacoes") line
          (lineConfidence line items) (str "layout_hint")

/-! ### Regex fallback extraction (`_apply_regex_fallbacks`) -/

/-- Greedy shrink of a trailing character run until the word boundary
after the kept prefix holds, never below `lo` characters: returns the
largest `k` between `lo` and the run length such that a `\b` holds
between the `k`-th run character and the character following it. -/
def shrinkRun (lo : Nat) (run after : Str) : Option Nat :=
  ((List.range (run.length + 1)).reverse).findSome? (fun k =>
    if k < lo then none
    else
      let lastc := run.getD (k - 1) ' '
      let next := if k < run.length then some (run.getD k ' ') else after.head?
      if wbBetween (some lastc) next then some k else none)

/-- Position matcher of the TC fallback pattern `\bTC\s*` followed by at
least three characters of the digit, dot, slash or dash class and a
trailing `\b`, case-insensitively; returns the whole match. -/
def tcFallbackAt (prev : Option Char) (s : Str) : Option Str :=
  match s with
  | t :: c :: rest =>
    if wbBefore prev ∧ pyLower t = 't' ∧ pyLower c = 'c' then
      let ws := rest.takeWhile pySpace
      let rest2 := rest.drop ws.length
      let run := rest2.takeWhile (fun d => isDigitCh d || isSepDot d)
      let after := rest2.drop run.length
      match shrinkRun 3 run after with
      | some k => some (t :: c :: (ws ++ run.take k))
      | none => none
    else none
  | _ => none

/-- Position matcher of the date fallback pattern `\bDATA\s*` followed by
a captured date-shaped group (one to two digits, separator, one to two
digits, separator, two to four digits, each quantifier greedy);
returns the captured group. -/
def dataFallbackAt (prev : Option Char) (s : Str) : Option Str :=
  match s with
  | d :: a :: t :: a2 :: rest =>
    if wbBefore prev ∧ [d, a, t, a2].map pyLower = str "data" then
      let rest2 := rest.dropWhile pySpace
      [2, 1].findSome? (fun l1 =>
        let g1 := rest2.take l1
        let r1 := rest2.drop l1
        if g1.length = l1 ∧ g1.all isDigitCh then
          match r1 with
          | sep1 :: r2 =>
            if isSepDot sep1 then
              [2, 1].findSome? (fun l2 =>
                let g2 := r2.take l2
                let r3 := r2.drop l2
                if g2.length = l2 ∧ g2.all isDigitCh then
                  match r3 with
                  | sep2 :: r4 =>
                    if isSepDot sep2 then
                      [4, 3, 2].findSome? (fun l3 =>
                        let g3 := r4.take l3
                        if g3.length = l3 ∧ g3.all isDigitCh then
                          some (g1 ++ sep1 :: (g2 ++ sep2 :: g3))
                        else none)
                    else none
                  | [] => none
                else none)
            else none
          | [] => none
        else none)
    else none
  | _ => none

/-- Character class of the process-key fallback group: digits, dot,
slash, star, dash. -/
def procFallbackCh (c : Char) : Bool :=
  isDigitCh c || c == '.' || c == '/' || c == '*' || c == '-'

/-- Position matcher of the process-key fallback pattern `\bPROC`,
an optional dot, optional whitespace, then a captured non-empty run of
the digits-and-separators class; the optional dot backtracks when taking
it leaves no capturable run.  Returns the captured group. -/
def procFallbackAt (prev : Option Char) (s : Str) : Option Str :=
  match s with
  | p :: r :: o :: c :: rest =>
    if wbBefore prev ∧ [p, r, o, c].map pyLower = str "proc" then
      let fromPt := fun (s2 : Str) =>
        let run := (s2.dropWhile pySpace).takeWhile procFallbackCh
        if run.isEmpty then none else some run
      match rest with
      | '.' :: rest2 =>
        match fromPt rest2 with
        | some g => some g
        | none => fromPt rest
      | _ => fromPt rest
    else none
  | _ => none

/-- Letter-or-dollar-or-backslash class of the VALOR fallback group
prefix: the raw-string class contains the letters (case-insensitively),
the dollar sign and a literal backslash. -/
def valorPrefixCh (c : Char) : Bool :=
  isLowerCh c || isUpperCh c || c == '$' || c == '\\'

/-- Digits, backslash, dot or comma class of the VALOR fallback group
suffix. -/
def valorAmountCh (c : Char) : Bool :=
  isDigitCh c || c == '\\' || c == '.' || c == ','

/-- Position matcher of the VALOR fallback pattern `\bVALOR\s*` followed
by a captured group made of a greedy (backtracking) prefix of letters,
dollar signs and backslashes and a non-empty run of digits, backslashes,
dots and commas.  Returns the captured group. -/
def valorFallbackAt (prev : Option Char) (s : Str) : Option Str :=
  match s with
  | v :: a :: l :: o :: r :: rest =>
    if wbBefore prev ∧ [v, a, l, o, r].map pyLower = str "valor" then
      let rest2 := rest.dropWhile pySpace
      let runA := rest2.takeWhile valorPrefixCh
      ((List.range (runA.length + 1)).reverse).findSome? (fun k =>
        let restB := rest2.drop k
        let runB := restB.takeWhile valorAmountCh
        if runB.isEmpty then none else some (runA.take k ++ runB))
    else none
  | _ => none

/-- Writes a suggestion directly into the base group, the way the
fallback extractor assigns `base[field] = {...}`. -/
def putBase (sugs : Suggestions) (field : Str) (sug : Suggestion) : Suggestions :=
  { sugs with base := updAssoc field sug sugs.base }

/-- First fallback block of `_apply_regex_fallbacks`: the TC pattern,
stored with the spaces removed at confidence 0.35. -/
def fallbackTc (text : Str) (sugs : Suggestions) : Suggestions :=
  if (lookupAssoc (str "tc_numero") sugs.base).isSome then sugs
  else
    match scanPositions tcFallbackAt none text with
    | some g => putBase sugs (str "tc_numero")
        ⟨g.filter (fun c => c != ' '), 35 / 100, str "heuristic"⟩
    | none => sugs

/-- Second fallback block: the first four-digit `19xx` or `20xx` year at
confidence 0.3. -/
def fallbackAno (text : Str) (sugs : Suggestions) : Suggestions :=
  if (lookupAssoc (str "ano") sugs.base).isSome then sugs
  else
    match searchStr yearAt text with
    | some g => putBase sugs (str "ano") ⟨g, 3 / 10, str "heuristic"⟩
    | none => sugs

/-- Third fallback block: a `DATA <date>` capture that must also parse
as a date, at confidence 0.3. -/
def fallbackData (text : Str) (sugs : Suggestions) : Suggestions :=
  if (lookupAssoc (str "data") sugs.base).isSome then sugs
  else
    match scanPositions dataFallbackAt none text with
    | some g =>
      match parseDate g with
      | some parsed => putBase sugs (str "data") ⟨parsed, 3 / 10, str "heuristic"⟩
      | none => sugs
    | none => sugs

/-- Fourth fallback block: a `PROC <id>` capture, run through the
process-key parser with the raw capture as fallback, at confidence
0.3. -/
def fallbackProc (text : Str) (sugs : Suggestions) : Suggestions :=
  if (lookupAssoc (str "process_key") sugs.base).isSome then sugs
  else
    match scanPositions procFallbackAt none text with
    | some g =>
      let value := match parseProcessKey g with
        | some v => if v.isEmpty then g else v
        | none => g
      putBase sugs (str "process_key") ⟨value, 3 / 10, str "heuristic"⟩
    | none => sugs

/-- Fifth fallback block: a `VALOR <amount>` capture that must also
parse as a decimal, at confidence 0.3. -/
def fallbackValor (text : Str) (sugs : Suggestions) : Suggestions :=
  if (lookupAssoc (str "valor") sugs.base).isSome then sugs
  else
    match scanPositions valorFallbackAt none text with
    | some g =>
      match parseDecimal g with
      | some parsed => putBase sugs (str "valor") ⟨parsed, 3 / 10, str "heuristic"⟩
      | none => sugs
    | none => sugs

/-- Embeds `_apply_regex_fallbacks`: for each of the five base fields
still absent, search the whole text with the corresponding fixed pattern
and write a low-confidence `heuristic` suggestion directly into the base
group, in source order. -/
def applyRegexFallbacks (text : Str) (sugs : Suggestions) : Suggestions :=
  fallbackValor text (fallbackProc text (fallbackData text (fallbackAno text
    (fallbackTc text sugs))))

/-! ### The mapping pipeline (`map_fields_to_ficha`) -/

/-- Python `str.splitlines` restricted to the newline character: split on
every newline, without a trailing empty piece for a terminal newline. -/
def splitLines (s : Str) : List Str :=
  s.foldr
    (fun c acc =>
      if c = '\n' then [] :: acc
      else
        match acc with
        | [] => [[c]]
        | t :: ts => (c :: t) :: ts)
    []

/-- The label-block pass: feed every block candidate to the aggregator
with source `label_block`. -/
def labelBlockPass (templateFields : List (Str × Str)) (lines : List Str)
    (aliasToks : List (List Str × Grp × Str)) (labelMap : List (Str × Grp × Str))
    (items : List OcrItem) (sugs : Suggestions) : Suggestions :=
  (collectLabelBlocks lines aliasToks labelMap items).foldl
    (fun sg b => addSuggestion templateFields sg b.1 b.2.1 b.2.2.1 b.2.2.2 (str "label_block"))
    sugs

/-- The key-value pass: fuzzily match each extracted key against the
label map at threshold 70 and feed the value to the aggregator with the
badge-adjusted line confidence and source `key_value`. -/
def keyValuePass (templateFields : List (Str × Str)) (pairs : List (Str × Str × Str))
    (labelMap : List (Str × Grp × Str)) (items : List OcrItem) (sugs : Suggestions) :
    Suggestions :=
  pairs.foldl
    (fun sg p =>
      let keyNorm := normalizeLabel p.1
      match processExtractOne keyNorm (labelMap.map (·.1)) with
      | none => sg
      | some b =>
        let label := b.1
        let score := b.2.1
        if score < 70 then sg
        else
          match lookupAssoc label labelMap with
          | none => sg
          | some gf =>
            addSuggestion templateFields sg gf.1 gf.2 p.2.1
              (confidenceBadge (lineConfidence p.2.2 items) score) (str "key_value"))
    sugs

/-- The layout-hint pass: the three targeted heuristics in source order. -/
def layoutHintPass (templateFields : List (Str × Str)) (lines : List Str)
    (aliasToks : List (List Str × Grp × Str)) (labelMap : List (Str × Grp × Str))
    (items : List OcrItem) (sugs : Suggestions) : Suggestions :=
  let scan := labelScan lines aliasToks labelMap
  let mts := scan.1
  let positions := scan.2
  let sugs := interessadoHint templateFields lines mts positions items sugs
  let sugs := assuntoHint templateFields lines mts positions items sugs
  observacoesHint templateFields lines mts positions items sugs

/-- Embeds `map_fields_to_ficha`: split the text into non-blank lines,
build the label index and the sorted alias list, then run the four passes
in source order — label blocks, key-value pairs, layout hints, regex
fallbacks — against an initially empty suggestions dictionary. -/
def mapFieldsToFicha (text : Str) (items : List OcrItem)
    (template : Option TemplateSchema) : Suggestions :=
  let lines := (splitLines text).filter (fun l => truthy (pyStrip l))
  let pairs := extractKeyValues lines
  let labelMap := labelMapOf template
  let templateFields := templateFieldsOf template
  let aliasToks := aliasTokensOf labelMap
  let s1 := labelBlockPass templateFields lines aliasToks labelMap items ⟨[], []⟩
  let s2 := keyValuePass templateFields pairs labelMap items s1
  let s3 := layoutHintPass templateFields lines aliasToks labelMap items s2
  applyRegexFallbacks text s3

/-! ### Job state machine (`ocr_worker.process_ocr_job` and the
status-poll watchdog of `routes/web.py`)

Times are integral seconds; the `datetime` values of the source are
totally ordered timestamps and only their differences are compared. -/

/-- The four job status strings. -/
inductive JobStatus where
  | queued
  | processing
  | done
  | failed
deriving DecidableEq

/-- The `OcrJob` record fields that the worker and the watchdog read or
write: status, the two lifecycle timestamps, the error message, and a
flag recording whether the result payload (text, raw items, suggestions)
has been stored. -/
structure OcrJob where
  status : JobStatus
  startedAt : Option ℤ
  finishedAt : Option ℤ
  errorMessage : Option Str
  hasResults : Bool
deriving DecidableEq

/-- The fixed watchdog message
`"OCR expirou ou foi interrompido. Reenvie o arquivo."`. -/
def timeoutMsg : Str := str "OCR expirou ou foi interrompido. Reenvie o arquivo."

/-- Embeds the mutating part of `fichas_importar_status_poll`: when the
job is `processing`, `started_at` is set (a non-null datetime is always
truthy) and the elapsed time strictly exceeds
`int(settings.OCR_TIMEOUT_SECONDS) + 120` seconds, the job is committed
as `failed` with the fixed message and `finished_at = now`; in every
other case the handler only reads the job. -/
def pollStep (timeoutSetting now : ℤ) (job : OcrJob) : OcrJob :=
  match job.status, job.startedAt with
  | .processing, some s =>
    if timeoutSetting + 120 < now - s then
      { job with status := .failed, errorMessage := some timeoutMsg, finishedAt := some now }
    else job
  | _, _ => job

/-- Progress of the single worker invocation that the queue delivers for
a job: not yet started, between its start commit and its terminal
commit, or finished. -/
inductive WorkerPhase where
  | idle
  | running
  | finished
deriving DecidableEq

/-- A job record together with the worker's progress. -/
structure JobSystem where
  job : OcrJob
  worker : WorkerPhase
deriving DecidableEq

/-- The observable steps of the job lifecycle: the worker's three commit
points in `process_ocr_job` (the start commit that sets
`status = "processing"` and `started_at`; the success commit that sets
`status = "done"`, stores the results and sets `finished_at`; the
exception handler that sets `status = "failed"`, `error_message` and
`finished_at`) and a watchdog poll at a given time.  None of the worker's
terminal commits checks the job's current status before writing, exactly
as in the source. -/
inductive JobEvent where
  | workerStart (t : ℤ)
  | workerSuccess (t : ℤ)
  | workerFailure (t : ℤ) (msg : Str)
  | watchdogPoll (t : ℤ)
deriving DecidableEq

/-- One transition of the job system; `none` when the event is not
enabled (the queue delivers the job to the worker once, so the worker
events are ordered by its phase, while a poll may happen at any time). -/
def stepJob (timeoutSetting : ℤ) (sys : JobSystem) : JobEvent → Option JobSystem
  | .workerStart t =>
    match sys.worker with
    | .idle =>
      some ⟨{ sys.job with status := .processing, startedAt := some t }, .running⟩
    | _ => none
  | .workerSuccess t =>
    match sys.worker with
    | .running =>
      some ⟨{ sys.job with status := .done, finishedAt := some t, hasResults := true },
        .finished⟩
    | _ => none
  | .workerFailure t msg =>
    match sys.worker with
    | .running =>
      let j := { sys.job with status := .failed, errorMessage := some msg }
      some ⟨{ j with finishedAt := some t }, .finished⟩
    | _ => none
  | .watchdogPoll t => some ⟨pollStep timeoutSetting t sys.job, sys.worker⟩

/-- The state of a freshly enqueued job (`OcrJob(..., status="queued")`
before the worker claims it). -/
def initSystem : JobSystem := ⟨⟨.queued, none, none, none, false⟩, .idle⟩

/-- Runs a sequence of events from a state, failing when an event is not
enabled. -/
def runJob (timeoutSetting : ℤ) : JobSystem → List JobEvent → Option JobSystem
  | sys, [] => some sys
  | sys, e :: es =>
    match stepJob timeoutSetting sys e with
    | some sys2 => runJob timeoutSetting sys2 es
    | none => none

/-! ### Concrete evaluation inputs -/

/-- A one-line document with an explicit key-value process line. -/
def procLine : Str := str "Processo: PROC-123"

/-- Three OCR lines: a standalone `Interessado` label, a labelled date
line, and the interested party's name carrying a very low OCR
confidence. -/
def lowConfText : Str := str "Interessado\nData 12/03/1999\nFulano de Tal"

/-- OCR items matching `lowConfText` line for line, the last one with
confidence `0.01`. -/
def lowConfItems : List OcrItem :=
  [⟨str "Interessado", some (9 / 10)⟩,
   ⟨str "Data 12/03/1999", some (9 / 10)⟩,
   ⟨str "Fulano de Tal", some (1 / 100)⟩]

/-- Field slot of a suggestions dictionary. -/
def slotOf (sugs : Suggestions) (g : Grp) (f : Str) : Option Suggestion :=
  lookupAssoc f (sugs.grp g)

/-- A slot evolution that only adds or improves: the slot is unchanged,
or it now holds a suggestion and was either empty before or held one of
strictly smaller confidence. -/
def SlotImproves (old new : Option Suggestion) : Prop :=
  new = old ∨ ∃ s, new = some s ∧
    (old = none ∨ ∃ o, old = some o ∧ o.confidence < s.confidence)

/-- Both groups of the suggestions dictionary have duplicate-free field
keys (each field holds at most one suggestion). -/
def KeysOk (sugs : Suggestions) : Prop :=
  (sugs.base.map Prod.fst).Nodup ∧ (sugs.extras.map Prod.fst).Nodup

/-- Every stored suggestion that did not come from the layout-hint pass
has confidence within the badge clamp interval. -/
def ConfOk (sugs : Suggestions) : Prop :=
  ∀ g f s, slotOf sugs g f = some s → s.source ≠ str "layout_hint" →
    5 / 100 ≤ s.confidence ∧ s.confidence ≤ 1

/-! ## Theorems -/

set_option maxRecDepth 16384

/-- Lookup after a dict update: the updated key reads the new value, any
other key is unaffected. -/
theorem lookupAssoc_updAssoc {α : Type} (kL kI : Str) (v : α) (m : List (Str × α)) :
    lookupAssoc kL (updAssoc kI v m) = if kL = kI then some v else lookupAssoc kL m := by
  induction m with
  | nil => simp [updAssoc, lookupAssoc]
  | cons e rest ih =>
    obtain ⟨k3, v3⟩ := e
    simp only [updAssoc, lookupAssoc]
    split_ifs <;> simp_all [lookupAssoc]

/-- Key membership after a dict update. -/
theorem mem_keys_updAssoc {α : Type} (x kI : Str) (v : α) (m : List (Str × α)) :
    x ∈ (updAssoc kI v m).map Prod.fst ↔ x = kI ∨ x ∈ m.map Prod.fst := by
  induction m with
  | nil => simp [updAssoc]
  | cons e rest ih =>
    obtain ⟨k3, v3⟩ := e
    by_cases h1 : kI = k3
    · subst h1
      simp only [updAssoc, eq_self_iff_true, ite_true, List.map_cons, List.mem_cons]
      tauto
    · simp only [updAssoc, if_neg h1, List.map_cons, List.mem_cons, ih]
      tauto

/-- A dict update keeps the key list duplicate-free. -/
theorem nodup_keys_updAssoc {α : Type} (kI : Str) (v : α) (m : List (Str × α))
    (h : (m.map Prod.fst).Nodup) : ((updAssoc kI v m).map Prod.fst).Nodup := by
  induction m with
  | nil => simp [updAssoc]
  | cons e rest ih =>
    obtain ⟨k3, v3⟩ := e
    rw [List.map_cons, List.nodup_cons] at h
    simp only [updAssoc]
    split_ifs with h1
    · subst h1
      simp only [List.map_cons, List.nodup_cons]
      exact h
    · simp only [List.map_cons, List.nodup_cons]
      refine ⟨?_, ih h.2⟩
      rw [mem_keys_updAssoc]
      rintro (rfl | hx)
      · exact h1 rfl
      · exact h.1 hx

/-- Reading a group after replacing one group. -/
theorem grp_setGrp (s : Suggestions) (g g2 : Grp) (m : List (Str × Suggestion)) :
    (s.setGrp g m).grp g2 = if g2 = g then m else s.grp g2 := by
  cases g <;> cases g2 <;> simp [Suggestions.setGrp, Suggestions.grp]

/-- Claim C1 (the code violates it): along the event sequence
worker-start, late watchdog poll, worker-success — all three steps
enabled by the code — the job reaches the terminal state `failed` with
`finished` set, and is then updated again by the worker's unguarded
success commit: status moves `failed → done` and `finished` is set a
second time, contradicting monotonicity, the single assignment of
`finished`, and terminal-state immutability. -/
theorem worker_watchdog_race :
    runJob 180 initSystem [.workerStart 0] =
      some ⟨⟨.processing, some 0, none, none, false⟩, .running⟩ ∧
    runJob 180 initSystem [.workerStart 0, .watchdogPoll 301] =
      some ⟨⟨.failed, some 0, some 301, some timeoutMsg, false⟩, .running⟩ ∧
    runJob 180 initSystem [.workerStart 0, .watchdogPoll 301, .workerSuccess 400] =
      some ⟨⟨.done, some 0, some 400, some timeoutMsg, true⟩, .finished⟩ := by
  refine ⟨?_, ?_, ?_⟩ <;> with_unfolding_all decide

/-- Claim C5: the status poll mutates the job exactly when it is
`processing` with `started` set and the elapsed time strictly above the
provider timeout plus 120 seconds, in which case it stores the fixed
timed-out message and `finished = now`; in every other case the job
record is unchanged. -/
theorem pollStep_spec (timeoutSetting now : ℤ) (job : OcrJob) :
    (∀ s, job.status = .processing → job.startedAt = some s →
      timeoutSetting + 120 < now - s →
      pollStep timeoutSetting now job =
        { job with status := .failed, errorMessage := some timeoutMsg,
                   finishedAt := some now }) ∧
    (¬ (∃ s, job.status = .processing ∧ job.startedAt = some s ∧
        timeoutSetting + 120 < now - s) →
      pollStep timeoutSetting now job = job) := by
  constructor
  · intro s hst hsa hlt
    unfold pollStep
    rw [hst, hsa]
    simp [hlt]
  · intro hno
    unfold pollStep
    cases hst : job.status <;> cases hsa : job.startedAt <;> try rfl
    case processing.some s =>
      have : ¬ (timeoutSetting + 120 < now - s) := fun hlt => hno ⟨s, hst, hsa, hlt⟩
      simp [this]

/-- Witness for C5: a stale processing job is failed with the fixed
message, and a processing job within the deadline is untouched. -/
theorem pollStep_spec_witness :
    pollStep 180 301 ⟨.processing, some 0, none, none, false⟩ =
      ⟨.failed, some 0, some 301, some timeoutMsg, false⟩ ∧
    pollStep 180 300 ⟨.processing, some 0, none, none, false⟩ =
      ⟨.processing, some 0, none, none, false⟩ := by
  constructor
  · exact (pollStep_spec 180 301 ⟨.processing, some 0, none, none, false⟩).1 0 rfl rfl
      (by decide)
  · exact (pollStep_spec 180 300 ⟨.processing, some 0, none, none, false⟩).2
      (by rintro ⟨s, _, h2, h3⟩; injection h2 with h; omega)

/-- Claim C3 (counterexample): on the input `"1234.56"` the parser
removes the period outright and returns `"123456"`, not `"1234.56"` as
the claim states. -/
theorem parseDecimal_dot_counterexample :
    parseDecimal (str "1234.56") = some (str "123456") ∧
    some (str "123456") ≠ some (str "1234.56") := by
  with_unfolding_all decide

/-- Claim C3 as amended: the parser strips `R$` and spaces, removes all
periods unconditionally (there is no both-separators case distinction),
replaces commas with periods, and drops any remaining character outside
digits, period and minus, failing on an empty result; hence
`"R$ 1.234,56"` parses to `"1234.56"` while `"1234.56"` parses to
`"123456"`, and no two-decimal formatting is applied. -/
theorem parseDecimal_behavior :
    parseDecimal (str "R$ 1.234,56") = some (str "1234.56") ∧
    parseDecimal (str "1234.56") = some (str "123456") ∧
    ∀ v r, parseDecimal v = some r →
      r ≠ [] ∧ ∀ c ∈ r, isDigitCh c = true ∨ c = '.' ∨ c = '-' := by
  refine ⟨by with_unfolding_all decide, by with_unfolding_all decide, ?_⟩
  intro v r h
  simp only [parseDecimal] at h
  split at h
  · exact absurd h (by simp)
  · next hne =>
    have hr : r = _ := (Option.some.injEq _ _ ▸ h.symm)
    subst hr
    refine ⟨by simpa [List.isEmpty_iff] using hne, ?_⟩
    intro c hc
    have := List.of_mem_filter hc
    have h3 := by simpa [Bool.or_eq_true, decide_eq_true_eq] using this
    tauto

/-- Witness for C3 (amended): the characterisation applied to the
concrete input `"R$ 1.234,56"`. -/
theorem parseDecimal_behavior_witness :
    str "1234.56" ≠ [] ∧
    ∀ c ∈ str "1234.56", isDigitCh c = true ∨ c = '.' ∨ c = '-' :=
  parseDecimal_behavior.2.2 (str "R$ 1.234,56") (str "1234.56")
    (by with_unfolding_all decide)

/-- Claim C6 (the code violates it): a `reparticao` candidate whose
value begins with the token `valor` is accepted and creates a
suggestion, because the guard's raw-string pattern `(?i)^valor\\b`
requires a literal backslash and letter `b` after `valor` rather than a
word boundary; the guard only fires on that literal sequence. -/
theorem reparticao_valor_guard_ineffective :
    addSuggestion [] ⟨[], []⟩ .base (str "reparticao") (str "valor 100") (9 / 10)
        (str "key_value") =
      ⟨[(str "reparticao", ⟨str "valor 100", 9 / 10, str "key_value"⟩)], []⟩ ∧
    valorGuard (str "valor 100") = false ∧
    valorGuard (str "valor\\b x") = true := by
  refine ⟨?_, ?_, ?_⟩ <;> with_unfolding_all decide

/-- Claim C7 (counterexample): on the single line `Processo: PROC-123`
with no schema the returned `process_key` suggestion has source
`label_block`, not `key_value` — the inline-label pass emits the
candidate first, and the key-value candidate arrives with equal
confidence, which does not displace the earlier slot. -/
theorem processo_line_source_counterexample :
    (slotOf (mapFieldsToFicha procLine [] none) .base (str "process_key")).map
        Suggestion.source = some (str "label_block") ∧
    some (str "label_block") ≠ some (str "key_value") := by
  constructor
  · with_unfolding_all decide
  · with_unfolding_all decide

/-- Claim C7 as amended: the base suggestion for `process_key` carries
the value `123` extracted by the process-key pattern from `PROC-123`,
but its source is `label_block` (the key-value candidate ties on
confidence and the earlier candidate is kept). -/
theorem processo_line_suggestion :
    mapFieldsToFicha procLine [] none =
      ⟨[(str "process_key", ⟨str "123", 1 / 2, str "label_block"⟩)], []⟩ ∧
    parseProcessKey (str "PROC-123") = some (str "123") := by
  constructor
  · with_unfolding_all decide
  · with_unfolding_all decide

/-- Claim C2 (counterexample): with OCR items reporting confidence 0.01
for the captured line, the layout-hint pass stores an `interessado`
suggestion whose confidence 0.01 lies below the claimed lower bound
0.05 — the layout-hint path applies no badge clamp. -/
theorem layout_hint_confidence_counterexample :
    slotOf (mapFieldsToFicha lowConfText lowConfItems none) .base (str "interessado") =
      some ⟨str "Fulano de Tal", 1 / 100, str "layout_hint"⟩ ∧
    ¬ (5 / 100 ≤ (1 / 100 : ℚ)) := by
  constructor
  · with_unfolding_all decide
  · with_unfolding_all decide
theorem addSuggestion_parse_fail (tf : List (Str × Str)) (sugs : Suggestions) (g : Grp)
    (f v : Str) (c : ℚ) (src : Str) (h : parseValue f v tf = none) :
    addSuggestion tf sugs g f v c src = sugs := by
  unfold addSuggestion
  split_ifs with hguard
  · rfl
  · rw [h]

theorem addSuggestion_no_downgrade (tf : List (Str × Str)) (sugs : Suggestions) (g : Grp)
    (f v : Str) (c : ℚ) (src : Str) (ex : Suggestion)
    (hex : slotOf sugs g f = some ex) (hle : c ≤ ex.confidence) :
    addSuggestion tf sugs g f v c src = sugs := by
  unfold addSuggestion
  split_ifs with hguard
  · rfl
  · cases hp : parseValue f v tf with
    | none => rfl
    | some parsed =>
      dsimp only
      unfold slotOf at hex
      rw [hex]
      dsimp only
      rw [if_neg (not_lt.mpr hle)]

theorem addSuggestion_overwrite (tf : List (Str × Str)) (sugs : Suggestions) (g : Grp)
    (f v : Str) (c : ℚ) (src : Str) (ex : Suggestion) (parsed : Str)
    (hex : slotOf sugs g f = some ex) (hp : parseValue f v tf = some parsed)
    (hlt : ex.confidence < c) (hguard : ¬(f = str "reparticao" ∧ valorGuard v = true)) :
    addSuggestion tf sugs g f v c src =
      sugs.setGrp g (updAssoc f ⟨parsed, c, src⟩ (sugs.grp g)) := by
  unfold addSuggestion
  rw [if_neg hguard, hp]
  dsimp only
  unfold slotOf at hex
  rw [hex]
  dsimp only
  rw [if_pos hlt]

theorem addSuggestion_cases (tf : List (Str × Str)) (sugs : Suggestions) (g : Grp)
    (f v : Str) (c : ℚ) (src : Str) :
    addSuggestion tf sugs g f v c src = sugs ∨
    ∃ parsed, parseValue f v tf = some parsed ∧ addSuggestion tf sugs g f v c src =
      sugs.setGrp g (updAssoc f ⟨parsed, c, src⟩ (sugs.grp g)) := by
  unfold addSuggestion
  split_ifs with hguard
  · exact Or.inl rfl
  · cases hp : parseValue f v tf with
    | none => exact Or.inl rfl
    | some parsed =>
      dsimp only
      cases lookupAssoc f (sugs.grp g) with
      | some existing =>
        dsimp only
        split_ifs with hlt
        · exact Or.inr ⟨parsed, rfl, rfl⟩
        · exact Or.inl rfl
      | none => exact Or.inr ⟨parsed, rfl, rfl⟩

theorem slotOf_addSuggestion (tf : List (Str × Str)) (sugs : Suggestions) (g : Grp)
    (f v : Str) (c : ℚ) (src : Str) (g2 : Grp) (f2 : Str) :
    slotOf (addSuggestion tf sugs g f v c src) g2 f2 = slotOf sugs g2 f2 ∨
    ∃ parsed, slotOf (addSuggestion tf sugs g f v c src) g2 f2 = some ⟨parsed, c, src⟩ := by
  rcases addSuggestion_cases tf sugs g f v c src with heq | ⟨parsed, hp, heq⟩
  · exact Or.inl (by rw [heq])
  · rw [heq]
    unfold slotOf
    rw [grp_setGrp]
    by_cases hg : g2 = g
    · rw [if_pos hg, lookupAssoc_updAssoc]
      by_cases hf : f2 = f
      · rw [if_pos hf]
        exact Or.inr ⟨parsed, rfl⟩
      · rw [if_neg hf]
        subst hg
        exact Or.inl rfl
    · rw [if_neg hg]
      exact Or.inl rfl

theorem addSuggestion_keysOk (tf : List (Str × Str)) (sugs : Suggestions) (g : Grp)
    (f v : Str) (c : ℚ) (src : Str) (h : KeysOk sugs) :
    KeysOk (addSuggestion tf sugs g f v c src) := by
  rcases addSuggestion_cases tf sugs g f v c src with heq | ⟨parsed, _, heq⟩
  · rw [heq]; exact h
  · rw [heq]
    obtain ⟨hb, he⟩ := h
    cases g
    · exact ⟨nodup_keys_updAssoc _ _ _ hb, he⟩
    · exact ⟨hb, nodup_keys_updAssoc _ _ _ he⟩

theorem addSuggestion_confOk (tf : List (Str × Str)) (sugs : Suggestions) (g : Grp)
    (f v : Str) (c : ℚ) (src : Str)
    (hc : src = str "layout_hint" ∨ (5 / 100 ≤ c ∧ c ≤ 1)) (h : ConfOk sugs) :
    ConfOk (addSuggestion tf sugs g f v c src) := by
  intro g2 f2 s hslot hsrc
  rcases slotOf_addSuggestion tf sugs g f v c src g2 f2 with heq | ⟨parsed, heq⟩
  · rw [heq] at hslot
    exact h g2 f2 s hslot hsrc
  · rw [heq] at hslot
    obtain rfl : (⟨parsed, c, src⟩ : Suggestion) = s := by injection hslot
    rcases hc with hl | hcb
    · exact absurd hl hsrc
    · exact hcb

theorem slotOf_putBase (sugs : Suggestions) (fld : Str) (sug : Suggestion)
    (g2 : Grp) (f2 : Str) :
    slotOf (putBase sugs fld sug) g2 f2 = slotOf sugs g2 f2 ∨
    slotOf (putBase sugs fld sug) g2 f2 = some sug := by
  unfold putBase slotOf
  cases g2 with
  | extras => exact Or.inl rfl
  | base =>
    show lookupAssoc f2 (updAssoc fld sug sugs.base) = lookupAssoc f2 sugs.base ∨
      lookupAssoc f2 (updAssoc fld sug sugs.base) = some sug
    rw [lookupAssoc_updAssoc]
    by_cases hf : f2 = fld
    · rw [if_pos hf]
      exact Or.inr rfl
    · rw [if_neg hf]
      exact Or.inl rfl

theorem putBase_keysOk (sugs : Suggestions) (fld : Str) (sug : Suggestion)
    (h : KeysOk sugs) : KeysOk (putBase sugs fld sug) :=
  ⟨nodup_keys_updAssoc _ _ _ h.1, h.2⟩

theorem putBase_confOk (sugs : Suggestions) (fld : Str) (sug : Suggestion)
    (hb : 5 / 100 ≤ sug.confidence ∧ sug.confidence ≤ 1)
    (h : ConfOk sugs) : ConfOk (putBase sugs fld sug) := by
  intro g2 f2 s hslot hsrc
  rcases slotOf_putBase sugs fld sug g2 f2 with heq | heq
  · rw [heq] at hslot
    exact h g2 f2 s hslot hsrc
  · rw [heq] at hslot
    obtain rfl : sug = s := by injection hslot
    exact hb

theorem foldl_inv {γ β : Type} (inv : γ → Prop) (step : γ → β → γ)
    (h : ∀ st b, inv st → inv (step st b)) :
    ∀ (l : List β) (st : γ), inv st → inv (l.foldl step st)
  | [], _, hst => hst
  | b :: l, st, hst => foldl_inv inv step h l (step st b) (h st b hst)

theorem foldl_inv_mem {γ β : Type} (inv : γ → Prop) (step : γ → β → γ) :
    ∀ (l : List β), (∀ st b, b ∈ l → inv st → inv (step st b)) →
      ∀ st : γ, inv st → inv (l.foldl step st)
  | [], _, _, hst => hst
  | b :: l, h, st, hst =>
    foldl_inv_mem inv step l (fun st2 b2 hb2 => h st2 b2 (List.mem_cons_of_mem _ hb2))
      (step st b) (h st b (List.mem_cons_self _ _) hst)

theorem confidenceBadge_bounds (conf score : ℚ) :
    5 / 100 ≤ confidenceBadge conf score ∧ confidenceBadge conf score ≤ 1 := by
  unfold confidenceBadge
  refine ⟨le_max_left _ _, ?_⟩
  exact max_le (by norm_num) (min_le_left _ _)



theorem slotImproves_refl (o : Option Suggestion) : SlotImproves o o := Or.inl rfl

theorem slotImproves_trans {a b c : Option Suggestion}
    (h1 : SlotImproves a b) (h2 : SlotImproves b c) : SlotImproves a c := by
  rcases h2 with rfl | ⟨s2, rfl, hb⟩
  · exact h1
  · rcases hb with rfl | ⟨o2, rfl, hlt⟩
    · rcases h1 with rfl | ⟨s1, hs1, _⟩
      · exact Or.inr ⟨s2, rfl, Or.inl rfl⟩
      · exact absurd hs1 (by simp)
    · rcases h1 with rfl | ⟨s1, hs1, hcase⟩
      · exact Or.inr ⟨s2, rfl, Or.inr ⟨o2, rfl, hlt⟩⟩
      · have hs : s1 = o2 := by injection hs1 with h; exact h.symm
        subst hs
        rcases hcase with rfl | ⟨o, ho, holt⟩
        · exact Or.inr ⟨s2, rfl, Or.inl rfl⟩
        · exact Or.inr ⟨s2, rfl, Or.inr ⟨o, ho, lt_trans holt hlt⟩⟩

theorem addSuggestion_improves (tf : List (Str × Str)) (sugs : Suggestions) (g : Grp)
    (f v : Str) (c : ℚ) (src : Str) (g2 : Grp) (f2 : Str) :
    SlotImproves (slotOf sugs g2 f2) (slotOf (addSuggestion tf sugs g f v c src) g2 f2) := by
  unfold addSuggestion
  split_ifs with hguard
  · exact slotImproves_refl _
  · cases hp : parseValue f v tf with
    | none => exact slotImproves_refl _
    | some parsed =>
      dsimp only
      cases hex : lookupAssoc f (sugs.grp g) with
      | some existing =>
        dsimp only
        split_ifs with hlt
        · unfold slotOf
          rw [grp_setGrp]
          by_cases hg : g2 = g
          · rw [if_pos hg, lookupAssoc_updAssoc]
            by_cases hf : f2 = f
            · subst hg; subst hf
              rw [if_pos rfl]
              exact Or.inr ⟨_, rfl, Or.inr ⟨existing, hex, hlt⟩⟩
            · rw [if_neg hf]; subst hg; exact slotImproves_refl _
          · rw [if_neg hg]; exact slotImproves_refl _
        · exact slotImproves_refl _
      | none =>
        dsimp only
        unfold slotOf
        rw [grp_setGrp]
        by_cases hg : g2 = g
        · rw [if_pos hg, lookupAssoc_updAssoc]
          by_cases hf : f2 = f
          · subst hg; subst hf
            rw [if_pos rfl, hex]
            exact Or.inr ⟨_, rfl, Or.inl rfl⟩
          · rw [if_neg hf]; subst hg; exact slotImproves_refl _
        · rw [if_neg hg]; exact slotImproves_refl _

theorem foldl_improves {β : Type} (step : Suggestions → β → Suggestions) (g2 : Grp) (f2 : Str)
    (hstep : ∀ sg b, SlotImproves (slotOf sg g2 f2) (slotOf (step sg b) g2 f2)) :
    ∀ (l : List β) (sugs : Suggestions),
      SlotImproves (slotOf sugs g2 f2) (slotOf (l.foldl step sugs) g2 f2)
  | [], _ => slotImproves_refl _
  | b :: l, sugs =>
    slotImproves_trans (hstep sugs b) (foldl_improves step g2 f2 hstep l (step sugs b))

theorem putBase_improves (sugs : Suggestions) (fld : Str) (sug : Suggestion)
    (g2 : Grp) (f2 : Str) (h : lookupAssoc fld sugs.base = none) :
    SlotImproves (slotOf sugs g2 f2) (slotOf (putBase sugs fld sug) g2 f2) := by
  unfold putBase slotOf
  cases g2 with
  | extras => exact slotImproves_refl _
  | base =>
    show SlotImproves (lookupAssoc f2 sugs.base) (lookupAssoc f2 (updAssoc fld sug sugs.base))
    rw [lookupAssoc_updAssoc]
    by_cases hf : f2 = fld
    · subst hf
      rw [if_pos rfl, h]
      exact Or.inr ⟨_, rfl, Or.inl rfl⟩
    · rw [if_neg hf]
      exact slotImproves_refl _

theorem labelBlockPass_improves (tf : List (Str × Str)) (lines : List Str)
    (ats : List (List Str × Grp × Str)) (lm : List (Str × Grp × Str))
    (items : List OcrItem) (sugs : Suggestions) (g2 : Grp) (f2 : Str) :
    SlotImproves (slotOf sugs g2 f2)
      (slotOf (labelBlockPass tf lines ats lm items sugs) g2 f2) := by
  unfold labelBlockPass
  exact foldl_improves _ g2 f2
    (fun sg (b : Grp × Str × Str × ℚ) =>
      addSuggestion_improves tf sg b.1 b.2.1 b.2.2.1 b.2.2.2 (str "label_block") g2 f2)
    _ sugs

theorem keyValuePass_improves (tf : List (Str × Str)) (pairs : List (Str × Str × Str))
    (lm : List (Str × Grp × Str)) (items : List OcrItem) (sugs : Suggestions)
    (g2 : Grp) (f2 : Str) :
    SlotImproves (slotOf sugs g2 f2)
      (slotOf (keyValuePass tf pairs lm items sugs) g2 f2) := by
  unfold keyValuePass
  refine foldl_improves _ g2 f2 (fun sg p => ?_) _ sugs
  dsimp only
  cases processExtractOne (normalizeLabel p.1) (lm.map (fun x => x.1)) with
  | none => exact slotImproves_refl _
  | some b =>
    dsimp only
    split_ifs with hs
    · exact slotImproves_refl _
    · cases lookupAssoc b.1 lm with
      | none => exact slotImproves_refl _
      | some gf => exact addSuggestion_improves tf sg gf.1 gf.2 p.2.1 _ (str "key_value") g2 f2

theorem interessadoHint_improves (tf : List (Str × Str)) (lines : List Str)
    (mts : List LabelMatch) (positions : List (Str × Nat)) (items : List OcrItem)
    (sugs : Suggestions) (g2 : Grp) (f2 : Str) :
    SlotImproves (slotOf sugs g2 f2)
      (slotOf (interessadoHint tf lines mts positions items sugs) g2 f2) := by
  unfold interessadoHint
  split_ifs with h1
  · exact slotImproves_refl _
  · cases lookupAssoc (str "interessado") positions with
    | none => exact slotImproves_refl _
    | some idx =>
      dsimp only
      cases hfind : (pyRange (idx + 1) (min lines.length (idx + 8))).findSome? (fun j =>
          let line := pyStrip (lines.getD j [])
          if isLabelIndex mts j then none
          else if line.length < 3 then none
          else if !hasAsciiLetter line then none
          else if looksLikeYear line || looksLikeDate line || looksLikeValue line ||
              looksLikeProc line then none
          else some line) with
      | none => exact slotImproves_refl _
      | some line => exact addSuggestion_improves tf sugs .base (str "interessado") line _ (str "layout_hint") g2 f2

theorem assuntoHint_improves (tf : List (Str × Str)) (lines : List Str)
    (mts : List LabelMatch) (positions : List (Str × Nat)) (items : List OcrItem)
    (sugs : Suggestions) (g2 : Grp) (f2 : Str) :
    SlotImproves (slotOf sugs g2 f2)
      (slotOf (assuntoHint tf lines mts positions items sugs) g2 f2) := by
  unfold assuntoHint
  split_ifs with h1
  · exact slotImproves_refl _
  · cases lookupAssoc (str "assunto") positions with
    | none => exact slotImproves_refl _
    | some idx =>
      dsimp only
      split_ifs with h2
      · exact slotImproves_refl _
      · exact addSuggestion_improves tf sugs .base (str "assunto") _ _ (str "layout_hint") g2 f2

theorem observacoesHint_improves (tf : List (Str × Str)) (lines : List Str)
    (mts : List LabelMatch) (positions : List (Str × Nat)) (items : List OcrItem)
    (sugs : Suggestions) (g2 : Grp) (f2 : Str) :
    SlotImproves (slotOf sugs g2 f2)
      (slotOf (observacoesHint tf lines mts positions items sugs) g2 f2) := by
  unfold observacoesHint
  split_ifs with h1
  · exact slotImproves_refl _
  · cases lookupAssoc (str "observacoes") positions with
    | none => exact slotImproves_refl _
    | some idx =>
      dsimp only
      cases hfind : (pyRange (idx + 1) (min lines.length (idx + 4))).findSome? (fun j =>
          let line := pyStrip (lines.getD j [])
          if isLabelIndex mts j then none
          else if line.length < 2 then none
          else some line) with
      | none => exact slotImproves_refl _
      | some line => exact addSuggestion_improves tf sugs .base (str "observacoes") line _ (str "layout_hint") g2 f2

theorem layoutHintPass_improves (tf : List (Str × Str)) (lines : List Str)
    (ats : List (List Str × Grp × Str)) (lm : List (Str × Grp × Str))
    (items : List OcrItem) (sugs : Suggestions) (g2 : Grp) (f2 : Str) :
    SlotImproves (slotOf sugs g2 f2)
      (slotOf (layoutHintPass tf lines ats lm items sugs) g2 f2) := by
  unfold layoutHintPass
  exact slotImproves_trans (interessadoHint_improves tf lines _ _ items sugs g2 f2)
    (slotImproves_trans (assuntoHint_improves tf lines _ _ items _ g2 f2)
      (observacoesHint_improves tf lines _ _ items _ g2 f2))

theorem fallbackTc_improves (text : Str) (sugs : Suggestions) (g2 : Grp) (f2 : Str) :
    SlotImproves (slotOf sugs g2 f2) (slotOf (fallbackTc text sugs) g2 f2) := by
  unfold fallbackTc
  split_ifs with h1
  · exact slotImproves_refl _
  · cases scanPositions tcFallbackAt none text with
    | none => exact slotImproves_refl _
    | some g =>
      exact putBase_improves sugs _ _ g2 f2 (Option.not_isSome_iff_eq_none.mp h1)

theorem fallbackAno_improves (text : Str) (sugs : Suggestions) (g2 : Grp) (f2 : Str) :
    SlotImproves (slotOf sugs g2 f2) (slotOf (fallbackAno text sugs) g2 f2) := by
  unfold fallbackAno
  split_ifs with h1
  · exact slotImproves_refl _
  · cases searchStr yearAt text with
    | none => exact slotImproves_refl _
    | some g =>
      exact putBase_improves sugs _ _ g2 f2 (Option.not_isSome_iff_eq_none.mp h1)

theorem fallbackData_improves (text : Str) (sugs : Suggestions) (g2 : Grp) (f2 : Str) :
    SlotImproves (slotOf sugs g2 f2) (slotOf (fallbackData text sugs) g2 f2) := by
  unfold fallbackData
  split_ifs with h1
  · exact slotImproves_refl _
  · cases scanPositions dataFallbackAt none text with
    | none => exact slotImproves_refl _
    | some g =>
      dsimp only
      cases parseDate g with
      | none => exact slotImproves_refl _
      | some parsed =>
        exact putBase_improves sugs _ _ g2 f2 (Option.not_isSome_iff_eq_none.mp h1)

theorem fallbackProc_improves (text : Str) (sugs : Suggestions) (g2 : Grp) (f2 : Str) :
    SlotImproves (slotOf sugs g2 f2) (slotOf (fallbackProc text sugs) g2 f2) := by
  unfold fallbackProc
  split_ifs with h1
  · exact slotImproves_refl _
  · cases scanPositions procFallbackAt none text with
    | none => exact slotImproves_refl _
    | some g =>
      exact putBase_improves sugs _ _ g2 f2 (Option.not_isSome_iff_eq_none.mp h1)

theorem fallbackValor_improves (text : Str) (sugs : Suggestions) (g2 : Grp) (f2 : Str) :
    SlotImproves (slotOf sugs g2 f2) (slotOf (fallbackValor text sugs) g2 f2) := by
  unfold fallbackValor
  split_ifs with h1
  · exact slotImproves_refl _
  · cases scanPositions valorFallbackAt none text with
    | none => exact slotImproves_refl _
    | some g =>
      dsimp only
      cases parseDecimal g with
      | none => exact slotImproves_refl _
      | some parsed =>
        exact putBase_improves sugs _ _ g2 f2 (Option.not_isSome_iff_eq_none.mp h1)

theorem applyRegexFallbacks_improves (text : Str) (sugs : Suggestions) (g2 : Grp) (f2 : Str) :
    SlotImproves (slotOf sugs g2 f2) (slotOf (applyRegexFallbacks text sugs) g2 f2) := by
  unfold applyRegexFallbacks
  exact slotImproves_trans (fallbackTc_improves text sugs g2 f2)
    (slotImproves_trans (fallbackAno_improves text _ g2 f2)
      (slotImproves_trans (fallbackData_improves text _ g2 f2)
        (slotImproves_trans (fallbackProc_improves text _ g2 f2)
          (fallbackValor_improves text _ g2 f2))))


theorem blockFlush_conf (items : List OcrItem) (st : BlockState)
    (h : ∀ x ∈ st.results, 5 / 100 ≤ x.2.2.2 ∧ x.2.2.2 ≤ 1) :
    ∀ x ∈ (blockFlush items st).results, 5 / 100 ≤ x.2.2.2 ∧ x.2.2.2 ≤ 1 := by
  unfold blockFlush
  cases hcur : st.current with
  | none => exact h
  | some gfs =>
    dsimp only
    split_ifs with hbuf
    · exact h
    · intro x hx
      rcases List.mem_append.mp hx with hx | hx
      · exact h x hx
      · rcases List.mem_singleton.mp hx with rfl
        exact confidenceBadge_bounds _ _

theorem collectLabelBlocks_conf (lines : List Str) (ats : List (List Str × Grp × Str))
    (lm : List (Str × Grp × Str)) (items : List OcrItem) :
    ∀ x ∈ collectLabelBlocks lines ats lm items, 5 / 100 ≤ x.2.2.2 ∧ x.2.2.2 ≤ 1 := by
  unfold collectLabelBlocks
  apply blockFlush_conf
  apply foldl_inv
    (fun st : BlockState => ∀ x ∈ st.results, 5 / 100 ≤ x.2.2.2 ∧ x.2.2.2 ≤ 1)
  · intro st line hst
    dsimp only
    split_ifs with hblank
    · exact blockFlush_conf items st hst
    · cases hm : matchInlineLabel line ats lm with
      | none =>
        dsimp only
        cases st.current with
        | some _ => exact hst
        | none => exact hst
      | some m =>
        dsimp only
        split_ifs with hval
        · intro x hx
          rcases List.mem_append.mp hx with hx | hx
          · exact blockFlush_conf items st hst x hx
          · rcases List.mem_singleton.mp hx with rfl
            exact confidenceBadge_bounds _ _
        · exact blockFlush_conf items st hst
  · intro x hx
    simp at hx

theorem labelBlockPass_keysOk (tf : List (Str × Str)) (lines : List Str)
    (ats : List (List Str × Grp × Str)) (lm : List (Str × Grp × Str))
    (items : List OcrItem) (sugs : Suggestions) (h : KeysOk sugs) :
    KeysOk (labelBlockPass tf lines ats lm items sugs) := by
  unfold labelBlockPass
  exact foldl_inv KeysOk _
    (fun st b hst => addSuggestion_keysOk tf st b.1 b.2.1 b.2.2.1 b.2.2.2 (str "label_block") hst)
    _ sugs h

theorem labelBlockPass_confOk (tf : List (Str × Str)) (lines : List Str)
    (ats : List (List Str × Grp × Str)) (lm : List (Str × Grp × Str))
    (items : List OcrItem) (sugs : Suggestions) (h : ConfOk sugs) :
    ConfOk (labelBlockPass tf lines ats lm items sugs) := by
  unfold labelBlockPass
  exact foldl_inv_mem ConfOk _ _
    (fun st b hb hst =>
      addSuggestion_confOk tf st b.1 b.2.1 b.2.2.1 b.2.2.2 (str "label_block")
        (Or.inr (collectLabelBlocks_conf lines ats lm items b hb)) hst)
    sugs h

theorem keyValuePass_keysOk (tf : List (Str × Str)) (pairs : List (Str × Str × Str))
    (lm : List (Str × Grp × Str)) (items : List OcrItem) (sugs : Suggestions)
    (h : KeysOk sugs) : KeysOk (keyValuePass tf pairs lm items sugs) := by
  unfold keyValuePass
  refine foldl_inv KeysOk _ (fun sg p hst => ?_) _ sugs h
  dsimp only
  cases processExtractOne (normalizeLabel p.1) (lm.map (fun x => x.1)) with
  | none => exact hst
  | some b =>
    dsimp only
    split_ifs with hs
    · exact hst
    · cases lookupAssoc b.1 lm with
      | none => exact hst
      | some gf => exact addSuggestion_keysOk tf sg gf.1 gf.2 p.2.1 _ (str "key_value") hst

theorem keyValuePass_confOk (tf : List (Str × Str)) (pairs : List (Str × Str × Str))
    (lm : List (Str × Grp × Str)) (items : List OcrItem) (sugs : Suggestions)
    (h : ConfOk sugs) : ConfOk (keyValuePass tf pairs lm items sugs) := by
  unfold keyValuePass
  refine foldl_inv ConfOk _ (fun sg p hst => ?_) _ sugs h
  dsimp only
  cases processExtractOne (normalizeLabel p.1) (lm.map (fun x => x.1)) with
  | none => exact hst
  | some b =>
    dsimp only
    split_ifs with hs
    · exact hst
    · cases lookupAssoc b.1 lm with
      | none => exact hst
      | some gf =>
        exact addSuggestion_confOk tf sg gf.1 gf.2 p.2.1 _ (str "key_value")
          (Or.inr (confidenceBadge_bounds _ _)) hst


theorem interessadoHint_keysOk (tf : List (Str × Str)) (lines : List Str)
    (mts : List LabelMatch) (positions : List (Str × Nat)) (items : List OcrItem)
    (sugs : Suggestions) (h : KeysOk sugs) :
    KeysOk (interessadoHint tf lines mts positions items sugs) := by
  unfold interessadoHint
  split_ifs with h1
  · exact h
  · cases lookupAssoc (str "interessado") positions with
    | none => exact h
    | some idx =>
      dsimp only
      cases hfind : (pyRange (idx + 1) (min lines.length (idx + 8))).findSome? (fun j =>
          let line := pyStrip (lines.getD j [])
          if isLabelIndex mts j then none
          else if line.length < 3 then none
          else if !hasAsciiLetter line then none
          else if looksLikeYear line || looksLikeDate line || looksLikeValue line ||
              looksLikeProc line then none
          else some line) with
      | none => exact h
      | some line => exact addSuggestion_keysOk tf sugs .base (str "interessado") line _ _ h

theorem interessadoHint_confOk (tf : List (Str × Str)) (lines : List Str)
    (mts : List LabelMatch) (positions : List (Str × Nat)) (items : List OcrItem)
    (sugs : Suggestions) (h : ConfOk sugs) :
    ConfOk (interessadoHint tf lines mts positions items sugs) := by
  unfold interessadoHint
  split_ifs with h1
  · exact h
  · cases lookupAssoc (str "interessado") positions with
    | none => exact h
    | some idx =>
      dsimp only
      cases hfind : (pyRange (idx + 1) (min lines.length (idx + 8))).findSome? (fun j =>
          let line := pyStrip (lines.getD j [])
          if isLabelIndex mts j then none
          else if line.length < 3 then none
          else if !hasAsciiLetter line then none
          else if looksLikeYear line || looksLikeDate line || looksLikeValue line ||
              looksLikeProc line then none
          else some line) with
      | none => exact h
      | some line =>
        exact addSuggestion_confOk tf sugs .base (str "interessado") line _ _ (Or.inl rfl) h

theorem assuntoHint_keysOk (tf : List (Str × Str)) (lines : List Str)
    (mts : List LabelMatch) (positions : List (Str × Nat)) (items : List OcrItem)
    (sugs : Suggestions) (h : KeysOk sugs) :
    KeysOk (assuntoHint tf lines mts positions items sugs) := by
  unfold assuntoHint
  split_ifs with h1
  · exact h
  · cases lookupAssoc (str "assunto") positions with
    | none => exact h
    | some idx =>
      dsimp only
      split_ifs with h2
      · exact h
      · exact addSuggestion_keysOk tf sugs .base (str "assunto") _ _ _ h

theorem assuntoHint_confOk (tf : List (Str × Str)) (lines : List Str)
    (mts : List LabelMatch) (positions : List (Str × Nat)) (items : List OcrItem)
    (sugs : Suggestions) (h : ConfOk sugs) :
    ConfOk (assuntoHint tf lines mts positions items sugs) := by
  unfold assuntoHint
  split_ifs with h1
  · exact h
  · cases lookupAssoc (str "assunto") positions with
    | none => exact h
    | some idx =>
      dsimp only
      split_ifs with h2
      · exact h
      · exact addSuggestion_confOk tf sugs .base (str "assunto") _ _ _ (Or.inl rfl) h

theorem observacoesHint_keysOk (tf : List (Str × Str)) (lines : List Str)
    (mts : List LabelMatch) (positions : List (Str × Nat)) (items : List OcrItem)
    (sugs : Suggestions) (h : KeysOk sugs) :
    KeysOk (observacoesHint tf lines mts positions items sugs) := by
  unfold observacoesHint
  split_ifs with h1
  · exact h
  · cases lookupAssoc (str "observacoes") positions with
    | none => exact h
    | some idx =>
      dsimp only
      cases hfind : (pyRange (idx + 1) (min lines.length (idx + 4))).findSome? (fun j =>
          let line := pyStrip (lines.getD j [])
          if isLabelIndex mts j then none
          else if line.length < 2 then none
          else some line) with
      | none => exact h
      | some line => exact addSuggestion_keysOk tf sugs .base (str "observacoes") line _ _ h

theorem observacoesHint_confOk (tf : List (Str × Str)) (lines : List Str)
    (mts : List LabelMatch) (positions : List (Str × Nat)) (items : List OcrItem)
    (sugs : Suggestions) (h : ConfOk sugs) :
    ConfOk (observacoesHint tf lines mts positions items sugs) := by
  unfold observacoesHint
  split_ifs with h1
  · exact h
  · cases lookupAssoc (str "observacoes") positions with
    | none => exact h
    | some idx =>
      dsimp only
      cases hfind : (pyRange (idx + 1) (min lines.length (idx + 4))).findSome? (fun j =>
          let line := pyStrip (lines.getD j [])
          if isLabelIndex mts j then none
          else if line.length < 2 then none
          else some line) with
      | none => exact h
      | some line =>
        exact addSuggestion_confOk tf sugs .base (str "observacoes") line _ _ (Or.inl rfl) h

theorem layoutHintPass_keysOk (tf : List (Str × Str)) (lines : List Str)
    (ats : List (List Str × Grp × Str)) (lm : List (Str × Grp × Str))
    (items : List OcrItem) (sugs : Suggestions) (h : KeysOk sugs) :
    KeysOk (layoutHintPass tf lines ats lm items sugs) := by
  unfold layoutHintPass
  exact observacoesHint_keysOk tf lines _ _ items _
    (assuntoHint_keysOk tf lines _ _ items _
      (interessadoHint_keysOk tf lines _ _ items sugs h))

theorem layoutHintPass_confOk (tf : List (Str × Str)) (lines : List Str)
    (ats : List (List Str × Grp × Str)) (lm : List (Str × Grp × Str))
    (items : List OcrItem) (sugs : Suggestions) (h : ConfOk sugs) :
    ConfOk (layoutHintPass tf lines ats lm items sugs) := by
  unfold layoutHintPass
  exact observacoesHint_confOk tf lines _ _ items _
    (assuntoHint_confOk tf lines _ _ items _
      (interessadoHint_confOk tf lines _ _ items sugs h))


theorem fallbackTc_inv (text : Str) (sugs : Suggestions) {P : Suggestions → Prop}
    (hP : P sugs)
    (hput : ∀ sg fld sug, P sg → 5 / 100 ≤ sug.confidence → sug.confidence ≤ 1 →
      P (putBase sg fld sug)) :
    P (fallbackTc text sugs) := by
  unfold fallbackTc
  split_ifs with h1
  · exact hP
  · cases scanPositions tcFallbackAt none text with
    | none => exact hP
    | some g => exact hput _ _ _ hP (by norm_num) (by norm_num)

theorem fallbackAno_inv (text : Str) (sugs : Suggestions) {P : Suggestions → Prop}
    (hP : P sugs)
    (hput : ∀ sg fld sug, P sg → 5 / 100 ≤ sug.confidence → sug.confidence ≤ 1 →
      P (putBase sg fld sug)) :
    P (fallbackAno text sugs) := by
  unfold fallbackAno
  split_ifs with h1
  · exact hP
  · cases searchStr yearAt text with
    | none => exact hP
    | some g => exact hput _ _ _ hP (by norm_num) (by norm_num)

theorem fallbackData_inv (text : Str) (sugs : Suggestions) {P : Suggestions → Prop}
    (hP : P sugs)
    (hput : ∀ sg fld sug, P sg → 5 / 100 ≤ sug.confidence → sug.confidence ≤ 1 →
      P (putBase sg fld sug)) :
    P (fallbackData text sugs) := by
  unfold fallbackData
  split_ifs with h1
  · exact hP
  · cases scanPositions dataFallbackAt none text with
    | none => exact hP
    | some g =>
      dsimp only
      cases parseDate g with
      | none => exact hP
      | some parsed => exact hput _ _ _ hP (by norm_num) (by norm_num)

theorem fallbackProc_inv (text : Str) (sugs : Suggestions) {P : Suggestions → Prop}
    (hP : P sugs)
    (hput : ∀ sg fld sug, P sg → 5 / 100 ≤ sug.confidence → sug.confidence ≤ 1 →
      P (putBase sg fld sug)) :
    P (fallbackProc text sugs) := by
  unfold fallbackProc
  split_ifs with h1
  · exact hP
  · cases scanPositions procFallbackAt none text with
    | none => exact hP
    | some g => exact hput _ _ _ hP (by norm_num) (by norm_num)

theorem fallbackValor_inv (text : Str) (sugs : Suggestions) {P : Suggestions → Prop}
    (hP : P sugs)
    (hput : ∀ sg fld sug, P sg → 5 / 100 ≤ sug.confidence → sug.confidence ≤ 1 →
      P (putBase sg fld sug)) :
    P (fallbackValor text sugs) := by
  unfold fallbackValor
  split_ifs with h1
  · exact hP
  · cases scanPositions valorFallbackAt none text with
    | none => exact hP
    | some g =>
      dsimp only
      cases parseDecimal g with
      | none => exact hP
      | some parsed => exact hput _ _ _ hP (by norm_num) (by norm_num)

theorem applyRegexFallbacks_inv (text : Str) (sugs : Suggestions) {P : Suggestions → Prop}
    (hP : P sugs)
    (hput : ∀ sg fld sug, P sg → 5 / 100 ≤ sug.confidence → sug.confidence ≤ 1 →
      P (putBase sg fld sug)) :
    P (applyRegexFallbacks text sugs) := by
  unfold applyRegexFallbacks
  exact fallbackValor_inv text _ (fallbackProc_inv text _ (fallbackData_inv text _
    (fallbackAno_inv text _ (fallbackTc_inv text sugs hP hput) hput) hput) hput) hput

theorem mapFields_keysOk (text : Str) (items : List OcrItem)
    (template : Option TemplateSchema) : KeysOk (mapFieldsToFicha text items template) := by
  unfold mapFieldsToFicha
  apply applyRegexFallbacks_inv
  · apply layoutHintPass_keysOk
    apply keyValuePass_keysOk
    apply labelBlockPass_keysOk
    exact ⟨List.nodup_nil, List.nodup_nil⟩
  · exact fun sg fld sug hsg _ _ => putBase_keysOk sg fld sug hsg

theorem mapFields_confOk (text : Str) (items : List OcrItem)
    (template : Option TemplateSchema) : ConfOk (mapFieldsToFicha text items template) := by
  unfold mapFieldsToFicha
  apply applyRegexFallbacks_inv
  · apply layoutHintPass_confOk
    apply keyValuePass_confOk
    apply labelBlockPass_confOk
    intro g f s hs
    simp [slotOf, Suggestions.grp, lookupAssoc] at hs
    cases g <;> simp [Suggestions.grp, lookupAssoc] at hs
  · exact fun sg fld sug hsg hb1 hb2 => putBase_confOk sg fld sug ⟨hb1, hb2⟩ hsg


/-- Claim C4: the aggregator keeps one slot per (group, field) — a new
candidate fills an empty slot, never replaces an occupied slot unless its
confidence is strictly greater (with the exact overwrite shape), a
candidate whose value fails to parse leaves the state unchanged — and
each of the four passes, applied in the fixed source order by
`mapFieldsToFicha`, only adds suggestions or replaces them by strictly
higher-confidence ones. -/
theorem aggregator_slot_semantics :
    (∀ tf sugs g f v c src, parseValue f v tf = none →
      addSuggestion tf sugs g f v c src = sugs) ∧
    (∀ tf sugs g f v c src ex, slotOf sugs g f = some ex → c ≤ ex.confidence →
      addSuggestion tf sugs g f v c src = sugs) ∧
    (∀ tf sugs g f v c src ex parsed, slotOf sugs g f = some ex →
      parseValue f v tf = some parsed → ex.confidence < c →
      ¬(f = str "reparticao" ∧ valorGuard v = true) →
      addSuggestion tf sugs g f v c src =
        sugs.setGrp g (updAssoc f ⟨parsed, c, src⟩ (sugs.grp g))) ∧
    (∀ tf lines ats lm items sugs g2 f2,
      SlotImproves (slotOf sugs g2 f2)
        (slotOf (labelBlockPass tf lines ats lm items sugs) g2 f2)) ∧
    (∀ tf pairs lm items sugs g2 f2,
      SlotImproves (slotOf sugs g2 f2)
        (slotOf (keyValuePass tf pairs lm items sugs) g2 f2)) ∧
    (∀ tf lines ats lm items sugs g2 f2,
      SlotImproves (slotOf sugs g2 f2)
        (slotOf (layoutHintPass tf lines ats lm items sugs) g2 f2)) ∧
    (∀ text sugs g2 f2,
      SlotImproves (slotOf sugs g2 f2) (slotOf (applyRegexFallbacks text sugs) g2 f2)) :=
  ⟨addSuggestion_parse_fail, addSuggestion_no_downgrade, addSuggestion_overwrite,
   labelBlockPass_improves, keyValuePass_improves, layoutHintPass_improves,
   applyRegexFallbacks_improves⟩

/-- Witness for C4: a failed parse leaves the state unchanged; an equal
confidence keeps the earlier candidate; a strictly greater confidence
overwrites the slot. -/
theorem aggregator_slot_semantics_witness :
    addSuggestion [] ⟨[], []⟩ .base (str "valor") (str "abc") 1 (str "key_value") =
      ⟨[], []⟩ ∧
    addSuggestion [] ⟨[(str "ano", ⟨str "1980", 1 / 2, str "label_block"⟩)], []⟩ .base
        (str "ano") (str "1999") (1 / 2) (str "key_value") =
      ⟨[(str "ano", ⟨str "1980", 1 / 2, str "label_block"⟩)], []⟩ ∧
    addSuggestion [] ⟨[(str "ano", ⟨str "1980", 1 / 2, str "label_block"⟩)], []⟩ .base
        (str "ano") (str "1999") (3 / 4) (str "key_value") =
      ⟨[(str "ano", ⟨str "1999", 3 / 4, str "key_value"⟩)], []⟩ := by
  refine ⟨?_, ?_, ?_⟩
  · exact aggregator_slot_semantics.1 [] ⟨[], []⟩ .base (str "valor") (str "abc") 1
      (str "key_value") (by with_unfolding_all decide)
  · exact aggregator_slot_semantics.2.1 [] _ .base (str "ano") (str "1999") (1 / 2)
      (str "key_value") ⟨str "1980", 1 / 2, str "label_block"⟩
      (by with_unfolding_all decide) (by with_unfolding_all decide)
  · exact (aggregator_slot_semantics.2.2.1 [] _ .base (str "ano") (str "1999") (3 / 4)
      (str "key_value") ⟨str "1980", 1 / 2, str "label_block"⟩ (str "1999")
      (by with_unfolding_all decide) (by with_unfolding_all decide)
      (by with_unfolding_all decide) (by with_unfolding_all decide)).trans
      (by with_unfolding_all decide)

/-- Claim C2 as amended: for every input the suggestions dictionary
holds at most one suggestion per (group, fieldId) — its key lists are
duplicate-free — and every suggestion whose source is not `layout_hint`
has confidence in the interval from 0.05 to 1.0; layout-hint suggestions
carry raw (possibly damped) OCR line confidences with no clamp, which is
what the counterexample exploits. -/
theorem mapFields_at_most_one_and_clamped (text : Str) (items : List OcrItem)
    (template : Option TemplateSchema) :
    ((mapFieldsToFicha text items template).base.map Prod.fst).Nodup ∧
    ((mapFieldsToFicha text items template).extras.map Prod.fst).Nodup ∧
    (∀ g f s, slotOf (mapFieldsToFicha text items template) g f = some s →
      s.source ≠ str "layout_hint" → 5 / 100 ≤ s.confidence ∧ s.confidence ≤ 1) :=
  ⟨(mapFields_keysOk text items template).1, (mapFields_keysOk text items template).2,
   mapFields_confOk text items template⟩

set_option maxRecDepth 65536 in
/-- Witness for C2 (amended): the bound instantiated on the computed
`process_key` suggestion of the `Processo: PROC-123` document. -/
theorem mapFields_clamped_witness :
    5 / 100 ≤ (Suggestion.mk (str "123") (1 / 2) (str "label_block")).confidence ∧
      (Suggestion.mk (str "123") (1 / 2) (str "label_block")).confidence ≤ 1 :=
  (mapFields_at_most_one_and_clamped procLine [] none).2.2 .base (str "process_key")
    ⟨str "123", 1 / 2, str "label_block"⟩ (by with_unfolding_all decide)
    (by with_unfolding_all decide)


theorem findSome_prefix_longest (tk ntk : List Str) :
    ∀ ats : List (List Str × Grp × Str),
      List.Pairwise (fun x y : List Str × Grp × Str => y.1.length ≤ x.1.length) ats →
      ∀ a ∈ ats, ntk.take a.1.length = a.1 →
      ∃ b ∈ ats, ntk.take b.1.length = b.1 ∧ a.1.length ≤ b.1.length ∧
        ats.findSome? (fun al =>
          if ntk.take al.1.length = al.1 then
            some (al.2.1, al.2.2, pyStrip (joinSp (tk.drop al.1.length)), (100 : ℚ))
          else none) =
          some (b.2.1, b.2.2, pyStrip (joinSp (tk.drop b.1.length)), 100) := by
  intro ats
  induction ats with
  | nil => intro _ a ha; exact absurd ha (List.not_mem_nil a)
  | cons x rest ih =>
    intro hp a ha hpre
    by_cases hx : ntk.take x.1.length = x.1
    · refine ⟨x, List.mem_cons_self _ _, hx, ?_, ?_⟩
      · rcases List.mem_cons.mp ha with rfl | har
        · exact le_refl _
        · exact (List.pairwise_cons.mp hp).1 a har
      · rw [List.findSome?_cons, if_pos hx]
    · have har : a ∈ rest := by
        rcases List.mem_cons.mp ha with rfl | h
        · exact absurd hpre hx
        · exact h
      obtain ⟨b, hb, h1, h2, h3⟩ := ih (List.pairwise_cons.mp hp).2 a har hpre
      refine ⟨b, List.mem_cons_of_mem _ hb, h1, h2, ?_⟩
      rw [List.findSome?_cons, if_neg hx]
      exact h3

/-- Claim C10: when the alias list is sorted by non-increasing token
count (as `aliasTokensOf` produces), any line whose normalised tokens
extend some alias resolves through an alias of maximal token length
among those that match, and the extracted value drops exactly that
longer alias's tokens. -/
theorem inline_match_longest_alias (ats : List (List Str × Grp × Str))
    (lm : List (Str × Grp × Str)) (line : Str)
    (hs : List.Pairwise (fun x y : List Str × Grp × Str => y.1.length ≤ x.1.length) ats)
    (a : List Str × Grp × Str) (ha : a ∈ ats) (hne : a.1 ≠ [])
    (hpre : (tokenizeLine line).2.take a.1.length = a.1) :
    ∃ b ∈ ats, (tokenizeLine line).2.take b.1.length = b.1 ∧
      a.1.length ≤ b.1.length ∧
      matchInlineLabel line ats lm =
        some (b.2.1, b.2.2, pyStrip (joinSp ((tokenizeLine line).1.drop b.1.length)), 100) := by
  obtain ⟨b, hb, h1, h2, h3⟩ :=
    findSome_prefix_longest (tokenizeLine line).1 (tokenizeLine line).2 ats hs a ha hpre
  refine ⟨b, hb, h1, h2, ?_⟩
  have hnz : (tokenizeLine line).2.isEmpty = false := by
    cases htl : (tokenizeLine line).2 with
    | nil =>
      rw [htl] at hpre
      simp only [List.take_nil] at hpre
      exact absurd hpre.symm hne
    | cons c cs => rfl
  unfold matchInlineLabel
  dsimp only
  rw [hnz]
  simp only [Bool.false_eq_true, if_false]
  rw [h3]


/-- Witness for C10: the line `Data de abertura 12/03/1999` carries both
the one-token alias `data` and the three-token alias `data de abertura`
as prefixes; the match resolves through an alias at least as long as
`data`, and the value drops that alias's tokens. -/
theorem inline_match_longest_alias_witness :
    ∃ b ∈ aliasTokensOf (labelMapOf none),
      (tokenizeLine (str "Data de abertura 12/03/1999")).2.take b.1.length = b.1 ∧
      ([str "data"] : List Str).length ≤ b.1.length ∧
      matchInlineLabel (str "Data de abertura 12/03/1999") (aliasTokensOf (labelMapOf none))
          (labelMapOf none) =
        some (b.2.1, b.2.2,
          pyStrip (joinSp ((tokenizeLine (str "Data de abertura 12/03/1999")).1.drop
            b.1.length)), 100) :=
  inline_match_longest_alias (aliasTokensOf (labelMapOf none)) (labelMapOf none)
    (str "Data de abertura 12/03/1999") (by with_unfolding_all decide)
    ([str "data"], Grp.base, str "data") (by with_unfolding_all decide)
    (by with_unfolding_all decide) (by with_unfolding_all decide)


theorem lookupCh_none (c : Char) (tbl : List (Char × Str))
    (h : ∀ e ∈ tbl, 192 ≤ e.1.toNat) (hc : c.toNat < 192) : lookupCh c tbl = none := by
  induction tbl with
  | nil => rfl
  | cons e rest ih =>
    obtain ⟨k, v⟩ := e
    have hk : ¬ c = k := by
      intro he
      subst he
      exact absurd (h (c, v) (List.mem_cons_self _ _)) (not_le.mpr hc)
    rw [lookupCh, if_neg hk]
    exact ih (fun e2 he2 => h e2 (List.mem_cons_of_mem _ he2))

theorem nfkdChar_ascii (c : Char) (hc : c.toNat < 192) : nfkdChar c = [c] := by
  unfold nfkdChar
  rw [lookupCh_none c nfkdTable (by decide) hc]

theorem isCombining_ascii (c : Char) (h : c.toNat < 768) : isCombining c = false := by
  unfold isCombining
  simp only [Bool.and_eq_false_iff, decide_eq_false_iff_not]
  left
  omega

theorem normChar_toNat {c : Char} (h : isLowerAlnum c = true ∨ c = ' ') :
    c.toNat = 32 ∨ (48 ≤ c.toNat ∧ c.toNat ≤ 57) ∨ (97 ≤ c.toNat ∧ c.toNat ≤ 122) := by
  rcases h with h | rfl
  · unfold isLowerAlnum isLowerCh isDigitCh at h
    simp only [Bool.or_eq_true, Bool.and_eq_true, decide_eq_true_eq] at h
    tauto
  · left
    rfl

theorem pyLower_normChar {c : Char} (h : isLowerAlnum c = true ∨ c = ' ') :
    pyLower c = c := by
  have ht := normChar_toNat h
  have hu : isUpperCh c = false := by
    unfold isUpperCh
    simp only [Bool.and_eq_false_iff, decide_eq_false_iff_not]
    omega
  simp [pyLower, hu]

theorem mem_subNonAlnum {c : Char} :
    ∀ (l : Str) (b : Bool), c ∈ subNonAlnum l b → c = ' ' ∨ (c ∈ l ∧ keepCh c = true) := by
  intro l
  induction l with
  | nil => intro b h; simp [subNonAlnum] at h
  | cons d rest ih =>
    intro b h
    rw [subNonAlnum] at h
    split_ifs at h with h1 h2
    · rcases List.mem_cons.mp h with rfl | h3
      · exact Or.inr ⟨List.mem_cons_self _ _, h1⟩
      · rcases ih false h3 with h4 | ⟨h4, h5⟩
        · exact Or.inl h4
        · exact Or.inr ⟨List.mem_cons_of_mem _ h4, h5⟩
    · rcases ih true h with h4 | ⟨h4, h5⟩
      · exact Or.inl h4
      · exact Or.inr ⟨List.mem_cons_of_mem _ h4, h5⟩
    · rcases List.mem_cons.mp h with rfl | h3
      · exact Or.inl rfl
      · rcases ih true h3 with h4 | ⟨h4, h5⟩
        · exact Or.inl h4
        · exact Or.inr ⟨List.mem_cons_of_mem _ h4, h5⟩

theorem mem_collapseWs {c : Char} :
    ∀ (l : Str) (b : Bool), c ∈ collapseWs l b → c = ' ' ∨ (c ∈ l ∧ pySpace c = false) := by
  intro l
  induction l with
  | nil => intro b h; simp [collapseWs] at h
  | cons d rest ih =>
    intro b h
    rw [collapseWs] at h
    split_ifs at h with h1 h2
    · rcases ih true h with h4 | ⟨h4, h5⟩
      · exact Or.inl h4
      · exact Or.inr ⟨List.mem_cons_of_mem _ h4, h5⟩
    · rcases List.mem_cons.mp h with rfl | h3
      · exact Or.inl rfl
      · rcases ih true h3 with h4 | ⟨h4, h5⟩
        · exact Or.inl h4
        · exact Or.inr ⟨List.mem_cons_of_mem _ h4, h5⟩
    · rcases List.mem_cons.mp h with rfl | h3
      · exact Or.inr ⟨List.mem_cons_self _ _, Bool.eq_false_iff.mpr h1⟩
      · rcases ih false h3 with h4 | ⟨h4, h5⟩
        · exact Or.inl h4
        · exact Or.inr ⟨List.mem_cons_of_mem _ h4, h5⟩

theorem pyStrip_sublist (l : Str) : (pyStrip l).Sublist l := by
  unfold pyStrip dropEndWhile dropStartWhile
  have h1 : (List.dropWhile pySpace (l.dropWhile pySpace).reverse).Sublist
      (l.dropWhile pySpace).reverse := List.dropWhile_sublist _
  have h2 := h1.reverse
  rw [List.reverse_reverse] at h2
  exact h2.trans (List.dropWhile_sublist _)


theorem dropWhile_head_not (p : Char → Bool) (l : Str) :
    ∀ c, (l.dropWhile p).head? = some c → p c = false := by
  induction l with
  | nil => intro c h; simp at h
  | cons d rest ih =>
    intro c h
    rw [List.dropWhile_cons] at h
    split_ifs at h with h1
    · exact ih c h
    · rw [List.head?_cons, Option.some_inj] at h
      subst h
      exact Bool.eq_false_iff.mpr h1

theorem dropWhile_eq_self_of_head (p : Char → Bool) (l : Str)
    (h : ∀ c, l.head? = some c → p c = false) : l.dropWhile p = l := by
  cases l with
  | nil => rfl
  | cons d rest => simp [List.dropWhile_cons, h d rfl]

theorem dropWhile_idem (p : Char → Bool) (l : Str) :
    (l.dropWhile p).dropWhile p = l.dropWhile p :=
  dropWhile_eq_self_of_head p _ (dropWhile_head_not p l)

theorem pyStrip_pyStrip (l : Str) : pyStrip (pyStrip l) = pyStrip l := by
  unfold pyStrip dropEndWhile dropStartWhile
  set A := l.dropWhile pySpace with hA
  set B := (A.reverse.dropWhile pySpace).reverse with hB
  have hBrev : B.reverse = A.reverse.dropWhile pySpace := by
    rw [hB, List.reverse_reverse]
  have hstep1 : B.dropWhile pySpace = B := by
    apply dropWhile_eq_self_of_head
    intro c hc
    have hBA : ∃ t, B ++ t = A := by
      have hsfx : B.reverse <:+ A.reverse := by
        rw [hBrev]
        exact List.dropWhile_suffix _
      obtain ⟨t, ht⟩ := hsfx
      refine ⟨t.reverse, ?_⟩
      have := congrArg List.reverse ht
      rw [List.reverse_append, List.reverse_reverse, List.reverse_reverse] at this
      exact this
    obtain ⟨t, ht⟩ := hBA
    cases hBc : B with
    | nil => rw [hBc] at hc; simp at hc
    | cons b bs =>
      rw [hBc] at hc
      rw [List.head?_cons, Option.some_inj] at hc
      subst hc
      apply dropWhile_head_not pySpace l
      rw [← hA, ← ht, hBc]
      rfl
  rw [hstep1, hBrev, dropWhile_idem]

theorem collapseWs_head_true (l : Str) :
    ∀ c, (collapseWs l true).head? = some c → pySpace c = false := by
  induction l with
  | nil => intro c h; simp [collapseWs] at h
  | cons d rest ih =>
    intro c h
    by_cases h1 : pySpace d = true
    · rw [collapseWs, if_pos h1, if_pos rfl] at h
      exact ih c h
    · rw [collapseWs, if_neg h1, List.head?_cons, Option.some_inj] at h
      subst h
      exact Bool.eq_false_iff.mpr h1

theorem chain'_collapseWs (l : Str) :
    ∀ b, List.Chain' (fun a c => ¬(pySpace a = true ∧ pySpace c = true)) (collapseWs l b) := by
  induction l with
  | nil => intro b; rw [collapseWs]; exact List.chain'_nil
  | cons d rest ih =>
    intro b
    by_cases h1 : pySpace d = true
    · cases b with
      | true =>
        rw [collapseWs, if_pos h1, if_pos rfl]
        exact ih true
      | false =>
        rw [collapseWs, if_pos h1, if_neg (by simp)]
        rw [List.chain'_cons']
        refine ⟨?_, ih true⟩
        intro y hy hcon
        rw [collapseWs_head_true rest y hy] at hcon
        exact absurd hcon.2 (by simp)
    · rw [collapseWs, if_neg h1, List.chain'_cons']
      exact ⟨fun y hy hcon => h1 hcon.1, ih false⟩

theorem chain'_pyStrip {R : Char → Char → Prop} (l : Str) (h : List.Chain' R l) :
    List.Chain' R (pyStrip l) := by
  unfold pyStrip dropEndWhile dropStartWhile
  have h1 : List.Chain' R (l.dropWhile pySpace) :=
    h.suffix (List.dropWhile_suffix _)
  have h2 : List.Chain' (flip R) (l.dropWhile pySpace).reverse := by
    rw [show l.dropWhile pySpace = (l.dropWhile pySpace).reverse.reverse from
      (List.reverse_reverse _).symm] at h1
    exact (List.chain'_reverse).mp h1
  have h3 : List.Chain' (flip R) (List.dropWhile pySpace (l.dropWhile pySpace).reverse) :=
    h2.suffix (List.dropWhile_suffix _)
  exact (List.chain'_reverse).mpr h3


theorem subNonAlnum_eq_self (l : Str) (h : ∀ c ∈ l, keepCh c = true) :
    ∀ b, subNonAlnum l b = l := by
  induction l with
  | nil => intro b; rfl
  | cons d rest ih =>
    intro b
    rw [subNonAlnum, if_pos (h d (List.mem_cons_self _ _)),
      ih (fun c hc => h c (List.mem_cons_of_mem _ hc)) false]

theorem collapseWs_eq_self_aux (l : Str) :
    (∀ c ∈ l, pySpace c = true → c = ' ') →
    List.Chain' (fun a c => ¬(pySpace a = true ∧ pySpace c = true)) l →
    ∀ b, (b = true → ∀ c, l.head? = some c → pySpace c = false) →
    collapseWs l b = l := by
  induction l with
  | nil => intro _ _ b _; rfl
  | cons d rest ih =>
    intro hsp hch b hb
    by_cases h1 : pySpace d = true
    · cases b with
      | true =>
        have := hb rfl d rfl
        rw [h1] at this
        exact absurd this (by simp)
      | false =>
        rw [collapseWs, if_pos h1, if_neg (by simp)]
        have hd : d = ' ' := hsp d (List.mem_cons_self _ _) h1
        rw [← hd]
        congr 1
        apply ih (fun c hc hc2 => hsp c (List.mem_cons_of_mem _ hc) hc2)
          ((List.chain'_cons').mp hch).2 true
        intro _ c hc
        have hrel := ((List.chain'_cons').mp hch).1 c (by rw [Option.mem_def, hc])
        cases hpc : pySpace c with
        | false => rfl
        | true => exact absurd ⟨h1, hpc⟩ hrel
    · rw [collapseWs, if_neg h1]
      congr 1
      exact ih (fun c hc hc2 => hsp c (List.mem_cons_of_mem _ hc) hc2)
        ((List.chain'_cons').mp hch).2 false (fun hf => absurd hf (by simp))

theorem collapseWs_eq_self (l : Str)
    (hsp : ∀ c ∈ l, pySpace c = true → c = ' ')
    (hch : List.Chain' (fun a c => ¬(pySpace a = true ∧ pySpace c = true)) l) :
    collapseWs l false = l :=
  collapseWs_eq_self_aux l hsp hch false (fun hf => absurd hf (by simp))

theorem stripAccents_eq_self (l : Str) (h : ∀ c ∈ l, c.toNat < 192) :
    stripAccents l = l := by
  unfold stripAccents
  have h1 : l.flatMap nfkdChar = l := by
    induction l with
    | nil => rfl
    | cons d rest ih =>
      rw [List.flatMap_cons, nfkdChar_ascii d (h d (List.mem_cons_self _ _)),
        ih (fun c hc => h c (List.mem_cons_of_mem _ hc))]
      rfl
  rw [h1, List.filter_eq_self.mpr]
  intro c hc
  rw [isCombining_ascii c (by have := h c hc; omega)]
  rfl

theorem map_pyLower_eq_self (l : Str) (h : ∀ c ∈ l, pyLower c = c) :
    l.map pyLower = l := by
  induction l with
  | nil => rfl
  | cons d rest ih =>
    rw [List.map_cons, h d (List.mem_cons_self _ _),
      ih (fun c hc => h c (List.mem_cons_of_mem _ hc))]

/-- Claim C9: label normalisation is an idempotent total function — the
empty input yields the empty output, every output character is a
lower-case alphanumeric or a single space (everything else is stripped
or collapsed), and normalising twice equals normalising once. -/
theorem normalizeLabel_idempotent :
    (∀ s, normalizeLabel (normalizeLabel s) = normalizeLabel s) ∧
    normalizeLabel [] = [] ∧
    (∀ s c, c ∈ normalizeLabel s → isLowerAlnum c = true ∨ c = ' ') := by
  have hmem : ∀ s c, c ∈ normalizeLabel s → isLowerAlnum c = true ∨ c = ' ' := by
    intro s c hc
    unfold normalizeLabel at hc
    have hc2 := (pyStrip_sublist _).subset hc
    rcases mem_collapseWs _ _ hc2 with rfl | ⟨hc3, hsp⟩
    · exact Or.inr rfl
    · rcases mem_subNonAlnum _ _ hc3 with rfl | ⟨hc4, hkeep⟩
      · exact Or.inr rfl
      · unfold keepCh at hkeep
        rw [Bool.or_eq_true] at hkeep
        rcases hkeep with hk | hk
        · exact Or.inl hk
        · rw [hk] at hsp
          exact absurd hsp (by simp)
  refine ⟨?_, rfl, hmem⟩
  intro s
  set N := normalizeLabel s with hN
  have hns : ∀ c ∈ N, isLowerAlnum c = true ∨ c = ' ' := fun c hc => hmem s c hc
  have h192 : ∀ c ∈ N, c.toNat < 192 := by
    intro c hc
    rcases normChar_toNat (hns c hc) with h | h | h <;> omega
  have hlow : ∀ c ∈ N, pyLower c = c := fun c hc => pyLower_normChar (hns c hc)
  have hkeep : ∀ c ∈ N, keepCh c = true := by
    intro c hc
    unfold keepCh
    rcases hns c hc with h | rfl
    · rw [h]
      rfl
    · rw [Bool.or_eq_true]
      right
      rfl
  have hsp1 : ∀ c ∈ N, pySpace c = true → c = ' ' := by
    intro c hc hcs
    rcases hns c hc with h | rfl
    · exfalso
      unfold isLowerAlnum isLowerCh isDigitCh at h
      unfold pySpace at hcs
      simp only [Bool.or_eq_true, Bool.and_eq_true, decide_eq_true_eq] at h hcs
      omega
    · rfl
  have hchain : List.Chain' (fun a c => ¬(pySpace a = true ∧ pySpace c = true)) N := by
    rw [hN]
    unfold normalizeLabel
    exact chain'_pyStrip _ (chain'_collapseWs _ false)
  have hNstrip : pyStrip N = N := by
    rw [hN]
    unfold normalizeLabel
    exact pyStrip_pyStrip _
  show normalizeLabel N = N
  unfold normalizeLabel
  rw [stripAccents_eq_self N h192, map_pyLower_eq_self N hlow, hNstrip]
  dsimp only
  rw [subNonAlnum_eq_self N hkeep false, collapseWs_eq_self N hsp1 hchain, hNstrip]


/-- Witness for C9: the output-character clause applied to a concrete
normalisation (`" PROC-123 "` normalises to `"proc 123"`). -/
theorem normalizeLabel_idempotent_witness :
    isLowerAlnum 'p' = true ∨ 'p' = ' ' :=
  normalizeLabel_idempotent.2.2 (str " PROC-123 ") 'p' (by with_unfolding_all decide)


theorem digit_facts (a : Nat) (h : a < 10) :
    isDigitCh (Char.ofNat (48 + a)) = true ∧ digitVal (Char.ofNat (48 + a)) = a := by
  interval_cases a <;> exact ⟨rfl, rfl⟩

theorem pySpace_false_of_digit (c : Char) (h : isDigitCh c = true) : pySpace c = false := by
  unfold isDigitCh at h
  simp only [Bool.and_eq_true, decide_eq_true_eq] at h
  unfold pySpace
  rw [Bool.or_eq_false_iff, Bool.and_eq_false_iff]
  refine ⟨?_, Or.inr ?_⟩ <;> rw [decide_eq_false_iff_not] <;> omega

theorem pad2_eq (n : Nat) :
    pad2 n = [Char.ofNat (48 + n / 10 % 10), Char.ofNat (48 + n % 10)] := by
  show [Char.ofNat (48 + n / 10 ^ 1 % 10), Char.ofNat (48 + n / 10 ^ 0 % 10)] = _
  rw [pow_one, pow_zero, Nat.div_one]

theorem pad4_eq (n : Nat) :
    pad4 n = [Char.ofNat (48 + n / 1000 % 10), Char.ofNat (48 + n / 100 % 10),
      Char.ofNat (48 + n / 10 % 10), Char.ofNat (48 + n % 10)] := by
  show [Char.ofNat (48 + n / 10 ^ 3 % 10), Char.ofNat (48 + n / 10 ^ 2 % 10),
    Char.ofNat (48 + n / 10 ^ 1 % 10), Char.ofNat (48 + n / 10 ^ 0 % 10)] = _
  norm_num

theorem matchNum2_pad2 (maxv n : Nat) (rest : Str) (h1 : 1 ≤ n) (h2 : n ≤ maxv)
    (h3 : maxv ≤ 99) : matchNum2 maxv (pad2 n ++ rest) = some (n, rest) := by
  rw [pad2_eq]
  obtain ⟨ha1, ha2⟩ := digit_facts (n / 10 % 10) (Nat.mod_lt _ (by omega))
  obtain ⟨hb1, hb2⟩ := digit_facts (n % 10) (Nat.mod_lt _ (by omega))
  show matchNum2 maxv (_ :: _ :: rest) = some (n, rest)
  rw [matchNum2]
  rw [ha1, hb1, ha2, hb2]
  simp only [Bool.and_self, if_true, ite_true]
  rw [if_pos]
  · congr 1
    rw [Prod.mk.injEq]
    constructor
    · omega
    · rfl
  · constructor <;> omega

theorem matchNum2_one (maxv n : Nat) (rest : Str) (h1 : 1 ≤ n) (h2 : n < 10)
    (hrest : rest = [] ∨ ∃ c cs, rest = c :: cs ∧ isDigitCh c = false) :
    matchNum2 maxv ([Char.ofNat (48 + n)] ++ rest) = some (n, rest) := by
  obtain ⟨ha1, ha2⟩ := digit_facts n h2
  rcases hrest with rfl | ⟨c, cs, rfl, hc⟩
  · show matchNum2 maxv [_] = _
    rw [matchNum2]
    rw [ha1, ha2]
    simp [h1]
  · show matchNum2 maxv (_ :: c :: cs) = _
    rw [matchNum2]
    rw [ha1, hc, ha2]
    simp [h1]

theorem matchNum2_render (maxv n : Nat) (rest : Str) (h1 : 1 ≤ n) (h2 : n ≤ maxv)
    (h3 : maxv ≤ 31)
    (hrest : rest = [] ∨ ∃ c cs, rest = c :: cs ∧ isDigitCh c = false) :
    matchNum2 maxv (renderNum n ++ rest) = some (n, rest) := by
  unfold renderNum
  split_ifs with h4
  · exact matchNum2_one maxv n rest h1 h4 hrest
  · exact matchNum2_pad2 maxv n rest h1 h2 (by omega)

theorem matchY4_pad4 (y : Nat) (hy : y ≤ 9999) (rest : Str) :
    matchY4 (pad4 y ++ rest) = some (y, rest) := by
  rw [pad4_eq]
  obtain ⟨h11, h12⟩ := digit_facts (y / 1000 % 10) (Nat.mod_lt _ (by omega))
  obtain ⟨h21, h22⟩ := digit_facts (y / 100 % 10) (Nat.mod_lt _ (by omega))
  obtain ⟨h31, h32⟩ := digit_facts (y / 10 % 10) (Nat.mod_lt _ (by omega))
  obtain ⟨h41, h42⟩ := digit_facts (y % 10) (Nat.mod_lt _ (by omega))
  show matchY4 (_ :: _ :: _ :: _ :: rest) = _
  rw [matchY4]
  rw [h11, h21, h31, h41, h12, h22, h32, h42]
  simp only [Bool.and_self, if_true, ite_true]
  congr 1
  rw [Prod.mk.injEq]
  constructor
  · omega
  · rfl

theorem matchY2_pad2 (yy : Nat) (h : yy ≤ 99) (rest : Str) :
    matchY2 (pad2 yy ++ rest) =
      some (if yy ≤ 68 then 2000 + yy else 1900 + yy, rest) := by
  rw [pad2_eq]
  obtain ⟨ha1, ha2⟩ := digit_facts (yy / 10 % 10) (Nat.mod_lt _ (by omega))
  obtain ⟨hb1, hb2⟩ := digit_facts (yy % 10) (Nat.mod_lt _ (by omega))
  show matchY2 (_ :: _ :: rest) = _
  rw [matchY2]
  rw [ha1, hb1, ha2, hb2]
  simp only [Bool.and_self, if_true, ite_true]
  have hv : yy / 10 % 10 * 10 + yy % 10 = yy := by omega
  rw [hv]


theorem expectCh_same (c : Char) (rest : Str) : expectCh c (c :: rest) = some rest := by
  rw [expectCh]
  simp

theorem expectCh_diff (c d : Char) (rest : Str) (h : ¬ d = c) :
    expectCh c (d :: rest) = none := by
  rw [expectCh]
  simp [h]

theorem strptime_dmy_y4 (sep : Char) (d m y : Nat) (rd rm : Str)
    (hrd : matchNum2 31 (rd ++ sep :: (rm ++ sep :: pad4 y)) =
      some (d, sep :: (rm ++ sep :: pad4 y)))
    (hrm : matchNum2 12 (rm ++ sep :: pad4 y) = some (m, sep :: pad4 y))
    (hy : y ≤ 9999) :
    strptimeDate (.dmy sep true) (rd ++ sep :: (rm ++ sep :: pad4 y)) = some (y, m, d) := by
  have hy4 : matchY4 (pad4 y) = some (y, []) := by
    have := matchY4_pad4 y hy []
    rwa [List.append_nil] at this
  simp only [strptimeDate, hrd, hrm, expectCh_same, hy4, Option.bind_eq_bind,
    Option.some_bind, List.isEmpty_nil, if_true]


theorem ne_of_nondigit_digit (c d : Char) (hc : isDigitCh c = true)
    (hd : isDigitCh d = false) : ¬ c = d := by
  intro he
  rw [he] at hc
  simp [hc] at hd

theorem matchY4_len2 (a b : Char) : matchY4 [a, b] = none := rfl

theorem matchY4_nondigit2 (c1 sep : Char) (rest : Str) (h : isDigitCh sep = false) :
    matchY4 (c1 :: sep :: rest) = none := by
  cases rest with
  | nil => rfl
  | cons a t =>
    cases t with
    | nil => rfl
    | cons b u =>
      rw [matchY4]
      simp [h]

theorem matchY4_nondigit3 (c1 c2 sep : Char) (rest : Str) (h : isDigitCh sep = false) :
    matchY4 (c1 :: c2 :: sep :: rest) = none := by
  cases rest with
  | nil => rfl
  | cons a t =>
    rw [matchY4]
    simp [h]

theorem matchNum2_cases (maxv : Nat) (a b : Char) (rest : Str) :
    matchNum2 maxv (a :: b :: rest) = none ∨
    (∃ v, matchNum2 maxv (a :: b :: rest) = some (v, rest)) ∨
    (∃ v, matchNum2 maxv (a :: b :: rest) = some (v, b :: rest)) := by
  rw [matchNum2]
  simp only []
  split_ifs <;>
    first
    | exact Or.inl rfl
    | exact Or.inr (Or.inl ⟨_, rfl⟩)
    | exact Or.inr (Or.inr ⟨_, rfl⟩)


theorem strptime_dmy_y2 (sep : Char) (d m yy : Nat) (rd rm : Str)
    (hrd : matchNum2 31 (rd ++ sep :: (rm ++ sep :: pad2 yy)) =
      some (d, sep :: (rm ++ sep :: pad2 yy)))
    (hrm : matchNum2 12 (rm ++ sep :: pad2 yy) = some (m, sep :: pad2 yy))
    (hyy : yy ≤ 99) :
    strptimeDate (.dmy sep false) (rd ++ sep :: (rm ++ sep :: pad2 yy)) =
      some (if yy ≤ 68 then 2000 + yy else 1900 + yy, m, d) := by
  have hy2 : matchY2 (pad2 yy) = some (if yy ≤ 68 then 2000 + yy else 1900 + yy, []) := by
    have := matchY2_pad2 yy hyy []
    rwa [List.append_nil] at this
  simp only [strptimeDate, hrd, hrm, expectCh_same, hy2, Option.bind_eq_bind,
    Option.some_bind, List.isEmpty_nil, if_true, Bool.false_eq_true, if_false]

theorem strptime_ymd_ok (sep : Char) (y m d : Nat) (rm rd : Str)
    (hy : y ≤ 9999)
    (hrm : matchNum2 12 (rm ++ sep :: rd) = some (m, sep :: rd))
    (hrd : matchNum2 31 rd = some (d, [])) :
    strptimeDate (.ymd sep) (pad4 y ++ sep :: (rm ++ sep :: rd)) = some (y, m, d) := by
  simp only [strptimeDate, matchY4_pad4 y hy, hrm, hrd, expectCh_same,
    Option.bind_eq_bind, Option.some_bind, List.isEmpty_nil, if_true]

theorem strptime_dmy_wrongsep (sep sep1 : Char) (b : Bool) (d : Nat) (rd rest : Str)
    (hrd : matchNum2 31 (rd ++ sep :: rest) = some (d, sep :: rest))
    (hne : ¬ sep = sep1) :
    strptimeDate (.dmy sep1 b) (rd ++ sep :: rest) = none := by
  simp only [strptimeDate, hrd, expectCh_diff sep1 sep rest hne,
    Option.bind_eq_bind, Option.some_bind, Option.none_bind]

theorem strptime_dmy_y4_short (sep : Char) (d m : Nat) (rd rm tail : Str)
    (hrd : matchNum2 31 (rd ++ sep :: (rm ++ sep :: tail)) =
      some (d, sep :: (rm ++ sep :: tail)))
    (hrm : matchNum2 12 (rm ++ sep :: tail) = some (m, sep :: tail))
    (htail : matchY4 tail = none) :
    strptimeDate (.dmy sep true) (rd ++ sep :: (rm ++ sep :: tail)) = none := by
  simp only [strptimeDate, hrd, hrm, expectCh_same, htail, if_true,
    Option.bind_eq_bind, Option.some_bind, Option.none_bind]

theorem strptime_ymd_of_y4_none (sep : Char) (s : Str) (h : matchY4 s = none) :
    strptimeDate (.ymd sep) s = none := by
  simp only [strptimeDate, h, Option.bind_eq_bind, Option.none_bind]

theorem strptime_ymd_wrongsep (sep sep1 : Char) (y : Nat) (rest : Str) (hy : y ≤ 9999)
    (hne : ¬ sep = sep1) :
    strptimeDate (.ymd sep1) (pad4 y ++ sep :: rest) = none := by
  simp only [strptimeDate, matchY4_pad4 y hy, expectCh_diff sep1 sep rest hne,
    Option.bind_eq_bind, Option.some_bind, Option.none_bind]

theorem expectCh_nondigit_of_digit (sep1 c : Char) (rest : Str)
    (hc : isDigitCh c = true) (hsep1 : isDigitCh sep1 = false) :
    expectCh sep1 (c :: rest) = none :=
  expectCh_diff sep1 c rest (ne_of_nondigit_digit c sep1 hc hsep1)

theorem strptime_dmy_pad4_none (sep1 : Char) (b : Bool) (y : Nat) (rest : Str)
    (hsep1 : isDigitCh sep1 = false) :
    strptimeDate (.dmy sep1 b) (pad4 y ++ rest) = none := by
  rw [pad4_eq]
  obtain ⟨h21, h22⟩ := digit_facts (y / 100 % 10) (Nat.mod_lt _ (by omega))
  obtain ⟨h31, h32⟩ := digit_facts (y / 10 % 10) (Nat.mod_lt _ (by omega))
  show strptimeDate (.dmy sep1 b)
    (Char.ofNat (48 + y / 1000 % 10) :: Char.ofNat (48 + y / 100 % 10) ::
      (Char.ofNat (48 + y / 10 % 10) :: Char.ofNat (48 + y % 10) :: rest)) = none
  rcases matchNum2_cases 31 (Char.ofNat (48 + y / 1000 % 10)) (Char.ofNat (48 + y / 100 % 10))
      (Char.ofNat (48 + y / 10 % 10) :: Char.ofNat (48 + y % 10) :: rest) with
    hnone | ⟨v, hv⟩ | ⟨v, hv⟩
  · simp only [strptimeDate, hnone, Option.bind_eq_bind, Option.none_bind]
  · simp only [strptimeDate, hv,
      expectCh_nondigit_of_digit sep1 _ _ h31 hsep1,
      Option.bind_eq_bind, Option.some_bind, Option.none_bind]
  · simp only [strptimeDate, hv,
      expectCh_nondigit_of_digit sep1 _ _ h21 hsep1,
      Option.bind_eq_bind, Option.some_bind, Option.none_bind]


theorem parseDateFmt_some (fmt : DateFmt) (s : Str) (y m d : Nat)
    (h : strptimeDate fmt s = some (y, m, d)) (hv : validDate y m d = true) :
    parseDateFmt fmt s = some (isoDate y m d) := by
  unfold parseDateFmt
  rw [h]
  simp [hv]

theorem parseDateFmt_none (fmt : DateFmt) (s : Str) (h : strptimeDate fmt s = none) :
    parseDateFmt fmt s = none := by
  unfold parseDateFmt
  rw [h]

theorem parseDateFmt_shape (fmt : DateFmt) (s r : Str)
    (h : parseDateFmt fmt s = some r) :
    ∃ y m d, validDate y m d = true ∧ r = isoDate y m d := by
  unfold parseDateFmt at h
  cases hp : strptimeDate fmt s with
  | none => rw [hp] at h; exact absurd h (by simp)
  | some t =>
    obtain ⟨y, m, d⟩ := t
    rw [hp] at h
    dsimp only at h
    split_ifs at h with hv
    · exact ⟨y, m, d, hv, (Option.some_inj.mp h).symm⟩

theorem findSome_cons_none {α β : Type} (f : α → Option β) (a : α) (l : List α)
    (h : f a = none) : (a :: l).findSome? f = l.findSome? f := by
  simp [List.findSome?, h]

theorem findSome_cons_some {α β : Type} (f : α → Option β) (a : α) (l : List α)
    (b : β) (h : f a = some b) : (a :: l).findSome? f = some b := by
  simp [List.findSome?, h]

theorem daysInMonth_le_31 (y m : Nat) : daysInMonth y m ≤ 31 := by
  unfold daysInMonth
  split_ifs <;> omega

theorem validDate_bounds (y m d : Nat) (h : validDate y m d = true) :
    1 ≤ y ∧ y ≤ 9999 ∧ 1 ≤ m ∧ m ≤ 12 ∧ 1 ≤ d ∧ d ≤ 31 := by
  unfold validDate at h
  simp only [Bool.and_eq_true, decide_eq_true_eq] at h
  have := daysInMonth_le_31 y m
  omega

theorem dropWhile_eq_self_of (p : Char → Bool) (s : Str)
    (h : ∀ c ∈ s, p c = false) : s.dropWhile p = s := by
  cases s with
  | nil => rfl
  | cons a t =>
    rw [List.dropWhile_cons, h a (by simp)]
    simp

theorem pyStrip_eq_self (s : Str) (h : ∀ c ∈ s, pySpace c = false) : pyStrip s = s := by
  unfold pyStrip dropStartWhile dropEndWhile
  rw [dropWhile_eq_self_of pySpace s h,
    dropWhile_eq_self_of pySpace s.reverse (fun c hc => h c (List.mem_reverse.mp hc)),
    List.reverse_reverse]

theorem padDigits_digit (k n : Nat) (c : Char) (hc : c ∈ padDigits k n) :
    isDigitCh c = true := by
  unfold padDigits at hc
  simp only [List.mem_map, List.mem_reverse, List.mem_range] at hc
  obtain ⟨i, _, rfl⟩ := hc
  exact (digit_facts (n / 10 ^ i % 10) (Nat.mod_lt _ (by omega))).1

theorem renderNum_digit (n : Nat) (c : Char) (hc : c ∈ renderNum n) :
    isDigitCh c = true := by
  unfold renderNum at hc
  split_ifs at hc with h
  · simp only [List.mem_singleton] at hc
    subst hc
    exact (digit_facts n h).1
  · exact padDigits_digit 2 n c hc


theorem findSomeFmt_cons_none (s : Str) (a : DateFmt) (l : List DateFmt)
    (h : parseDateFmt a s = none) :
    List.findSome? (fun fmt => parseDateFmt fmt s) (a :: l) =
    List.findSome? (fun fmt => parseDateFmt fmt s) l := findSome_cons_none _ _ _ h

theorem findSomeFmt_cons_some (s : Str) (a : DateFmt) (l : List DateFmt) (r : Str)
    (h : parseDateFmt a s = some r) :
    List.findSome? (fun fmt => parseDateFmt fmt s) (a :: l) = some r :=
  findSome_cons_some _ _ _ _ h

theorem matchY4_short_rd (d : Nat) (rd : Str) (sep : Char) (rest : Str)
    (hrd : rd = pad2 d ∨ rd = renderNum d) (hsepd : isDigitCh sep = false) :
    matchY4 (rd ++ sep :: rest) = none := by
  have h2 : ∀ n : Nat, matchY4 (pad2 n ++ sep :: rest) = none := by
    intro n
    rw [pad2_eq]
    exact matchY4_nondigit3 _ _ sep rest hsepd
  rcases hrd with rfl | rfl
  · exact h2 d
  · unfold renderNum
    split_ifs
    · exact matchY4_nondigit2 _ sep rest hsepd
    · exact h2 d

theorem dateStr_noSpace (y m d : Nat) (rd rm : Str) (sep : Char)
    (hrd : rd = pad2 d ∨ rd = renderNum d)
    (hrm : rm = pad2 m ∨ rm = renderNum m)
    (hsepsp : pySpace sep = false) :
    ∀ c ∈ rd ++ sep :: (rm ++ sep :: pad4 y), pySpace c = false := by
  have hdig : ∀ c : Char, isDigitCh c = true → pySpace c = false := pySpace_false_of_digit
  have hrdD : ∀ c ∈ rd, isDigitCh c = true := by
    rcases hrd with rfl | rfl
    · exact fun c hc => padDigits_digit 2 d c hc
    · exact fun c hc => renderNum_digit d c hc
  have hrmD : ∀ c ∈ rm, isDigitCh c = true := by
    rcases hrm with rfl | rfl
    · exact fun c hc => padDigits_digit 2 m c hc
    · exact fun c hc => renderNum_digit m c hc
  intro c hc
  simp only [List.mem_append, List.mem_cons] at hc
  rcases hc with h | rfl | h | rfl | h
  · exact hdig c (hrdD c h)
  · exact hsepsp
  · exact hdig c (hrmD c h)
  · exact hsepsp
  · exact hdig c (padDigits_digit 4 y c h)

theorem parseDate_dmy_y4 (y m d : Nat) (rd rm : Str) (sep : Char)
    (hv : validDate y m d = true)
    (hrd : rd = pad2 d ∨ rd = renderNum d)
    (hrm : rm = pad2 m ∨ rm = renderNum m)
    (hsep : sep = '/' ∨ sep = '-' ∨ sep = '.') :
    parseDate (rd ++ sep :: (rm ++ sep :: pad4 y)) = some (isoDate y m d) := by
  obtain ⟨hy1, hy9999, hm1, hm12, hd1, hd31⟩ := validDate_bounds y m d hv
  have hsepd : isDigitCh sep = false := by
    rcases hsep with rfl | rfl | rfl <;> decide
  have hsepsp : pySpace sep = false := by
    rcases hsep with rfl | rfl | rfl <;> decide
  have hrm_match : matchNum2 12 (rm ++ sep :: pad4 y) = some (m, sep :: pad4 y) := by
    rcases hrm with rfl | rfl
    · exact matchNum2_pad2 12 m _ hm1 hm12 (by omega)
    · exact matchNum2_render 12 m _ hm1 hm12 (by omega) (Or.inr ⟨sep, _, rfl, hsepd⟩)
  have hrd_match : matchNum2 31 (rd ++ sep :: (rm ++ sep :: pad4 y)) =
      some (d, sep :: (rm ++ sep :: pad4 y)) := by
    rcases hrd with rfl | rfl
    · exact matchNum2_pad2 31 d _ hd1 hd31 (by omega)
    · exact matchNum2_render 31 d _ hd1 hd31 (by omega) (Or.inr ⟨sep, _, rfl, hsepd⟩)
  have hs : strptimeDate (.dmy sep true) (rd ++ sep :: (rm ++ sep :: pad4 y)) =
      some (y, m, d) := strptime_dmy_y4 sep d m y rd rm hrd_match hrm_match hy9999
  have hfmt : parseDateFmt (.dmy sep true) (rd ++ sep :: (rm ++ sep :: pad4 y)) =
      some (isoDate y m d) := parseDateFmt_some _ _ y m d hs hv
  have hstrip : pyStrip (rd ++ sep :: (rm ++ sep :: pad4 y)) =
      rd ++ sep :: (rm ++ sep :: pad4 y) :=
    pyStrip_eq_self _ (dateStr_noSpace y m d rd rm sep hrd hrm hsepsp)
  have hY4 : matchY4 (rd ++ sep :: (rm ++ sep :: pad4 y)) = none :=
    matchY4_short_rd d rd sep _ hrd hsepd
  simp only [parseDate, hstrip, dateFmts]
  rcases hsep with rfl | rfl | rfl
  · exact findSome_cons_some _ _ _ _ hfmt
  · rw [findSomeFmt_cons_none _ _ _ (parseDateFmt_none _ _
      (strptime_dmy_wrongsep '-' '/' true d rd _ hrd_match (by decide)))]
    exact findSome_cons_some _ _ _ _ hfmt
  · rw [findSomeFmt_cons_none _ _ _ (parseDateFmt_none _ _
      (strptime_dmy_wrongsep '.' '/' true d rd _ hrd_match (by decide)))]
    rw [findSomeFmt_cons_none _ _ _ (parseDateFmt_none _ _
      (strptime_dmy_wrongsep '.' '-' true d rd _ hrd_match (by decide)))]
    rw [findSomeFmt_cons_none _ _ _ (parseDateFmt_none _ _
      (strptime_ymd_of_y4_none '-' _ hY4))]
    rw [findSomeFmt_cons_none _ _ _ (parseDateFmt_none _ _
      (strptime_ymd_of_y4_none '/' _ hY4))]
    exact findSome_cons_some _ _ _ _ hfmt


theorem parseDate_ymd (y m d : Nat) (rd rm : Str) (sep : Char)
    (hv : validDate y m d = true)
    (hrd : rd = pad2 d ∨ rd = renderNum d)
    (hrm : rm = pad2 m ∨ rm = renderNum m)
    (hsep : sep = '-' ∨ sep = '/') :
    parseDate (pad4 y ++ sep :: (rm ++ sep :: rd)) = some (isoDate y m d) := by
  obtain ⟨hy1, hy9999, hm1, hm12, hd1, hd31⟩ := validDate_bounds y m d hv
  have hsepd : isDigitCh sep = false := by
    rcases hsep with rfl | rfl <;> decide
  have hsepsp : pySpace sep = false := by
    rcases hsep with rfl | rfl <;> decide
  have hrd_match : matchNum2 31 rd = some (d, []) := by
    rcases hrd with rfl | rfl
    · have := matchNum2_pad2 31 d [] hd1 hd31 (by omega)
      rwa [List.append_nil] at this
    · have := matchNum2_render 31 d [] hd1 hd31 (by omega) (Or.inl rfl)
      rwa [List.append_nil] at this
  have hrm_match : matchNum2 12 (rm ++ sep :: rd) = some (m, sep :: rd) := by
    rcases hrm with rfl | rfl
    · exact matchNum2_pad2 12 m _ hm1 hm12 (by omega)
    · exact matchNum2_render 12 m _ hm1 hm12 (by omega) (Or.inr ⟨sep, _, rfl, hsepd⟩)
  have hs : strptimeDate (.ymd sep) (pad4 y ++ sep :: (rm ++ sep :: rd)) =
      some (y, m, d) := strptime_ymd_ok sep y m d rm rd hy9999 hrm_match hrd_match
  have hfmt : parseDateFmt (.ymd sep) (pad4 y ++ sep :: (rm ++ sep :: rd)) =
      some (isoDate y m d) := parseDateFmt_some _ _ y m d hs hv
  have hstrip : pyStrip (pad4 y ++ sep :: (rm ++ sep :: rd)) =
      pad4 y ++ sep :: (rm ++ sep :: rd) := by
    refine pyStrip_eq_self _ ?_
    have hrdD : ∀ c ∈ rd, isDigitCh c = true := by
      rcases hrd with rfl | rfl
      · exact fun c hc => padDigits_digit 2 d c hc
      · exact fun c hc => renderNum_digit d c hc
    have hrmD : ∀ c ∈ rm, isDigitCh c = true := by
      rcases hrm with rfl | rfl
      · exact fun c hc => padDigits_digit 2 m c hc
      · exact fun c hc => renderNum_digit m c hc
    intro c hc
    simp only [List.mem_append, List.mem_cons] at hc
    rcases hc with h | rfl | h | rfl | h
    · exact pySpace_false_of_digit c (padDigits_digit 4 y c h)
    · exact hsepsp
    · exact pySpace_false_of_digit c (hrmD c h)
    · exact hsepsp
    · exact pySpace_false_of_digit c (hrdD c h)
  have hdmy : ∀ sep1 : Char, isDigitCh sep1 = false → ∀ b : Bool,
      parseDateFmt (.dmy sep1 b) (pad4 y ++ sep :: (rm ++ sep :: rd)) = none :=
    fun sep1 h1 b => parseDateFmt_none _ _ (strptime_dmy_pad4_none sep1 b y _ h1)
  simp only [parseDate, hstrip, dateFmts]
  rcases hsep with rfl | rfl
  · rw [findSomeFmt_cons_none _ _ _ (hdmy '/' (by decide) true)]
    rw [findSomeFmt_cons_none _ _ _ (hdmy '-' (by decide) true)]
    exact findSome_cons_some _ _ _ _ hfmt
  · rw [findSomeFmt_cons_none _ _ _ (hdmy '/' (by decide) true)]
    rw [findSomeFmt_cons_none _ _ _ (hdmy '-' (by decide) true)]
    rw [findSomeFmt_cons_none _ _ _ (parseDateFmt_none _ _
      (strptime_ymd_wrongsep '/' '-' y _ hy9999 (by decide)))]
    exact findSome_cons_some _ _ _ _ hfmt

theorem parseDate_dmy_y2 (yy y m d : Nat) (rd rm : Str)
    (hy : y = if yy ≤ 68 then 2000 + yy else 1900 + yy)
    (hyy : yy ≤ 99)
    (hv : validDate y m d = true)
    (hrd : rd = pad2 d ∨ rd = renderNum d)
    (hrm : rm = pad2 m ∨ rm = renderNum m) :
    parseDate (rd ++ '.' :: (rm ++ '.' :: pad2 yy)) = some (isoDate y m d) := by
  obtain ⟨hy1, hy9999, hm1, hm12, hd1, hd31⟩ := validDate_bounds y m d hv
  have hrm_match : matchNum2 12 (rm ++ '.' :: pad2 yy) = some (m, '.' :: pad2 yy) := by
    rcases hrm with rfl | rfl
    · exact matchNum2_pad2 12 m _ hm1 hm12 (by omega)
    · exact matchNum2_render 12 m _ hm1 hm12 (by omega) (Or.inr ⟨'.', _, rfl, by decide⟩)
  have hrd_match : matchNum2 31 (rd ++ '.' :: (rm ++ '.' :: pad2 yy)) =
      some (d, '.' :: (rm ++ '.' :: pad2 yy)) := by
    rcases hrd with rfl | rfl
    · exact matchNum2_pad2 31 d _ hd1 hd31 (by omega)
    · exact matchNum2_render 31 d _ hd1 hd31 (by omega) (Or.inr ⟨'.', _, rfl, by decide⟩)
  have hs : strptimeDate (.dmy '.' false) (rd ++ '.' :: (rm ++ '.' :: pad2 yy)) =
      some (y, m, d) := by
    rw [strptime_dmy_y2 '.' d m yy rd rm hrd_match hrm_match hyy, ← hy]
  have hfmt : parseDateFmt (.dmy '.' false) (rd ++ '.' :: (rm ++ '.' :: pad2 yy)) =
      some (isoDate y m d) := parseDateFmt_some _ _ y m d hs hv
  have hstrip : pyStrip (rd ++ '.' :: (rm ++ '.' :: pad2 yy)) =
      rd ++ '.' :: (rm ++ '.' :: pad2 yy) := by
    refine pyStrip_eq_self _ ?_
    have hrdD : ∀ c ∈ rd, isDigitCh c = true := by
      rcases hrd with rfl | rfl
      · exact fun c hc => padDigits_digit 2 d c hc
      · exact fun c hc => renderNum_digit d c hc
    have hrmD : ∀ c ∈ rm, isDigitCh c = true := by
      rcases hrm with rfl | rfl
      · exact fun c hc => padDigits_digit 2 m c hc
      · exact fun c hc => renderNum_digit m c hc
    intro c hc
    simp only [List.mem_append, List.mem_cons] at hc
    rcases hc with h | rfl | h | rfl | h
    · exact pySpace_false_of_digit c (hrdD c h)
    · decide
    · exact pySpace_false_of_digit c (hrmD c h)
    · decide
    · exact pySpace_false_of_digit c (padDigits_digit 2 yy c h)
  have hY4 : matchY4 (rd ++ '.' :: (rm ++ '.' :: pad2 yy)) = none :=
    matchY4_short_rd d rd '.' _ hrd (by decide)
  have htail : matchY4 (pad2 yy) = none := by
    rw [pad2_eq]
    exact matchY4_len2 _ _
  simp only [parseDate, hstrip, dateFmts]
  rw [findSomeFmt_cons_none _ _ _ (parseDateFmt_none _ _
    (strptime_dmy_wrongsep '.' '/' true d rd _ hrd_match (by decide)))]
  rw [findSomeFmt_cons_none _ _ _ (parseDateFmt_none _ _
    (strptime_dmy_wrongsep '.' '-' true d rd _ hrd_match (by decide)))]
  rw [findSomeFmt_cons_none _ _ _ (parseDateFmt_none _ _
    (strptime_ymd_of_y4_none '-' _ hY4))]
  rw [findSomeFmt_cons_none _ _ _ (parseDateFmt_none _ _
    (strptime_ymd_of_y4_none '/' _ hY4))]
  rw [findSomeFmt_cons_none _ _ _ (parseDateFmt_none _ _
    (strptime_dmy_y4_short '.' d m rd rm _ hrd_match hrm_match htail))]
  exact findSome_cons_some _ _ _ _ hfmt

theorem parseDate_shape (s r : Str) (h : parseDate s = some r) :
    ∃ y m d, validDate y m d = true ∧ r = isoDate y m d := by
  unfold parseDate at h
  obtain ⟨fmt, _, hf⟩ := List.exists_of_findSome?_eq_some h
  exact parseDateFmt_shape fmt _ r hf


/-- C8: `_parse_date` tries the six fixed `strptime` formats `%d/%m/%Y`,
`%d-%m-%Y`, `%Y-%m-%d`, `%Y/%m/%d`, `%d.%m.%Y`, `%d.%m.%y` in that order,
the first successful parse wins, and the output is the canonical ISO
rendering of a calendar-valid date: "23.10.80" parses to "1980-10-23" and
"23/10/1980" parses to "1980-10-23"; every valid date written in any of
the six formats (days and months zero-padded or not, the supported
separators) round-trips to its ISO form, two-digit years through the
century pivot; and every successful parse returns the ISO rendering of a
date accepted by the `datetime` constructor. -/
theorem parseDate_formats :
    (parseDate (str "23.10.80") = some (str "1980-10-23") ∧
      parseDate (str "23/10/1980") = some (str "1980-10-23")) ∧
    (∀ y m d : Nat, ∀ rd rm : Str, ∀ sep : Char, validDate y m d = true →
      (rd = pad2 d ∨ rd = renderNum d) → (rm = pad2 m ∨ rm = renderNum m) →
      (sep = '/' ∨ sep = '-' ∨ sep = '.') →
      parseDate (rd ++ sep :: (rm ++ sep :: pad4 y)) = some (isoDate y m d)) ∧
    (∀ y m d : Nat, ∀ rd rm : Str, ∀ sep : Char, validDate y m d = true →
      (rd = pad2 d ∨ rd = renderNum d) → (rm = pad2 m ∨ rm = renderNum m) →
      (sep = '-' ∨ sep = '/') →
      parseDate (pad4 y ++ sep :: (rm ++ sep :: rd)) = some (isoDate y m d)) ∧
    (∀ yy y m d : Nat, ∀ rd rm : Str,
      y = (if yy ≤ 68 then 2000 + yy else 1900 + yy) → yy ≤ 99 →
      validDate y m d = true →
      (rd = pad2 d ∨ rd = renderNum d) → (rm = pad2 m ∨ rm = renderNum m) →
      parseDate (rd ++ '.' :: (rm ++ '.' :: pad2 yy)) = some (isoDate y m d)) ∧
    (∀ s r : Str, parseDate s = some r →
      ∃ y m d, validDate y m d = true ∧ r = isoDate y m d) := by
  refine ⟨⟨by decide, by decide⟩, ?_, ?_, ?_, parseDate_shape⟩
  · exact fun y m d rd rm sep hv h1 h2 h3 => parseDate_dmy_y4 y m d rd rm sep hv h1 h2 h3
  · exact fun y m d rd rm sep hv h1 h2 h3 => parseDate_ymd y m d rd rm sep hv h1 h2 h3
  · exact fun yy y m d rd rm hy hyy hv h1 h2 =>
      parseDate_dmy_y2 yy y m d rd rm hy hyy hv h1 h2

theorem parseDate_formats_witness :
    validDate 2024 7 3 = true ∧
    parseDate (str "3/7/2024") = some (str "2024-07-03") := by
  refine ⟨by decide, ?_⟩
  have h := parseDate_formats.2.1 2024 7 3 (renderNum 3) (renderNum 7) '/'
    (by decide) (Or.inr rfl) (Or.inr rfl) (Or.inl rfl)
  rw [show str "3/7/2024" = renderNum 3 ++ '/' :: (renderNum 7 ++ '/' :: pad4 2024)
    by decide]
  rw [h]
  decide

end Fichas
